import Mathlib

set_option maxRecDepth 100000

/-!
Verification of the ember-mcp documentation engine against its
natural-language specification.

The JavaScript source (DocumentationService, EmbeddingService, configuration
constants) is shallowly embedded below.  Strings are modelled as Lean
`String` / `List Char`; JavaScript numbers appearing in scores are modelled
as `Nat` (keyword scoring is integral) and `ℚ` (hybrid scoring multiplies by
the exact constants 0.6 / 0.4); fallible operations return `Option` /
`Except`.  External collaborators that are library imports in the source
(the embedding pipeline, `Math.sqrt`, the `pluralize` inflector) enter as
explicit parameters of the embedded functions.
-/

namespace EmberMcp

/-! ## Character and string primitives

These model the JavaScript string operations used by the service
(`toLowerCase`, `includes`, `indexOf`, `match` counting, `split`, `trim`).
All operate on `List Char`; contents in the corpora are ASCII, for which
these models agree with the UTF-16 based JavaScript semantics.
-/

abbrev Chars := List Char

/-- Whitespace class used by the JS regex `\s` and `trim` (ASCII part:
space, tab, line feed, carriage return). -/
def isWsChar (c : Char) : Bool :=
  c.toNat == 32 || c.toNat == 9 || c.toNat == 10 || c.toNat == 13

/-- Model of `String.prototype.includes` (substring test). -/
def containsSub : Chars → Chars → Bool
  | [], needle => needle.isEmpty
  | c :: t, needle => needle.isPrefixOf (c :: t) || containsSub t needle

/-- Model of `String.prototype.indexOf`: index of the first occurrence. -/
def firstIdxAux : Chars → Chars → Nat → Option Nat
  | [], needle, i => if needle.isEmpty then some i else none
  | c :: t, needle, i =>
    if needle.isPrefixOf (c :: t) then some i else firstIdxAux t needle (i + 1)

def firstIdx (hay needle : Chars) : Option Nat :=
  firstIdxAux hay needle 0

/-- Model of `(content.match(new RegExp(term, "gi")) || []).length` for a
literal search term: the number of non-overlapping occurrences, scanning left
to right (the `g` flag advances past each match).  Both sides are already
lower-cased at every call site.  The modelled queries contain no regex
metacharacters. -/
def countOccurAux : Chars → Chars → Nat → Nat
  | [], _, _ => 0
  | c :: t, needle, skip =>
    if skip > 0 then countOccurAux t needle (skip - 1)
    else if needle.isPrefixOf (c :: t) then 1 + countOccurAux t needle (needle.length - 1)
    else countOccurAux t needle 0

def countOccur (hay needle : Chars) : Nat :=
  if needle.isEmpty then 0 else countOccurAux hay needle 0

/-- Model of `split(/\s+/)` composed with dropping empty parts (every call
site filters out empty terms): the maximal runs of non-whitespace. -/
def splitWsAux : Chars → Chars → List Chars
  | [], acc => if acc.isEmpty then [] else [acc.reverse]
  | c :: t, acc =>
    if isWsChar c then
      if acc.isEmpty then splitWsAux t [] else acc.reverse :: splitWsAux t []
    else splitWsAux t (c :: acc)

def splitWs (cs : Chars) : List Chars :=
  splitWsAux cs []

/-- Model of `split("\n")` (keeps empty lines). -/
def splitLinesAux : Chars → Chars → List Chars
  | [], acc => [acc.reverse]
  | c :: t, acc =>
    if c == '\n' then acc.reverse :: splitLinesAux t []
    else splitLinesAux t (c :: acc)

def splitLines (cs : Chars) : List Chars :=
  splitLinesAux cs []

/-- Model of `Array.prototype.join(sep)`. -/
def joinWith (sep : Chars) : List Chars → Chars
  | [] => []
  | [x] => x
  | x :: y :: rest => x ++ sep ++ joinWith sep (y :: rest)

/-- Model of `String.prototype.trim`. -/
def trimChars (cs : Chars) : Chars :=
  ((cs.dropWhile isWsChar).reverse.dropWhile isWsChar).reverse

/-- Model of `String.prototype.toLowerCase` on ASCII content
(`Char.toLower` lower-cases exactly the ASCII letters). -/
def lowerChars (cs : Chars) : Chars :=
  cs.map Char.toLower

/-- Model of `String.prototype.startsWith` against a literal. -/
def startsWithStr (cs : Chars) (p : String) : Bool :=
  p.data.isPrefixOf cs

/-! ## Corpus parser (`parseDocumentation`, documentation-service, lines 87-138)

`this.sections` is a plain object mapping section names to arrays of items;
it is modelled as an insertion-ordered association list `SectionsMap`.
`parseDocumentation` mutates `this.sections` by appending flushed items; the
embedding threads that map explicitly, so the stateful behaviour (a second
parse appends, it does not rebuild) is preserved.  The calls the source
makes at the end of `parseDocumentation` into `indexApiDocs`, the
deprecation manager and the embedding index builder touch other fields and
are embedded separately below.
-/

structure ParsedItem where
  content : String
  startLine : Nat
deriving DecidableEq, Repr

abbrev SectionsMap := List (String × List ParsedItem)

/-- Lookup giving `this.sections[name] || []`. -/
def mapLookup : SectionsMap → String → List ParsedItem
  | [], _ => []
  | (k2, v) :: rest, k => if k2 == k then v else mapLookup rest k

/-- Model of `this.sections[name] = this.sections[name] || [];
this.sections[name].push(item)`: a plain-object insert-or-update — an
existing key keeps its position and its list is extended, a new key is
appended at the end (keys are unique by construction). -/
def addToMap : SectionsMap → String → ParsedItem → SectionsMap
  | [], k, it => [(k, [it])]
  | (k2, v) :: rest, k, it =>
    if k2 == k then (k2, v ++ [it]) :: rest else (k2, v) :: addToMap rest k it

/-- The section-header regex `/^# [a-z-]+$/`. -/
def isSectionHeaderLine : Chars → Bool
  | '#' :: ' ' :: rest =>
    !rest.isEmpty && rest.all (fun c => ('a' ≤ c && c ≤ 'z') || c == '-')
  | _ => false

/-- The item-separator regex `/^-{3,}$/`. -/
def isSeparatorLine (l : Chars) : Bool :=
  l.length ≥ 3 && l.all (fun c => c == '-')

structure ParseState where
  sections : SectionsMap
  currentSection : Option Nat
  currentContent : List Chars
  sectionName : String
deriving Repr

/-- The item flushed from an accumulation:
`{content: currentContent.join("\n"), startLine: currentSection}`. -/
def flushedItem (cur : Option Nat) (cont : List Chars) : ParsedItem :=
  ⟨String.mk (joinWith ['\n'] cont), cur.getD 0⟩

/-- The push of the flushed item onto `this.sections[sectionName]`. -/
def flushItem (st : ParseState) : ParseState :=
  ⟨addToMap st.sections st.sectionName (flushedItem st.currentSection st.currentContent),
   st.currentSection, st.currentContent, st.sectionName⟩

/-- One iteration of the parsing loop (lines 93-129 of the service). -/
def parseStep (st : ParseState) (i : Nat) (line : Chars) : ParseState :=
  if isSectionHeaderLine line then
    let st1 := if st.currentSection.isSome && !st.currentContent.isEmpty
      then flushItem st else st
    ⟨st1.sections, some i, [line], String.mk (trimChars (line.drop 2))⟩
  else if isSeparatorLine line && decide (st.currentContent.length > 1)
      && st.currentSection.isSome then
    let st1 := if !st.currentContent.isEmpty then flushItem st else st
    ⟨st1.sections, some (i + 1), [], st1.sectionName⟩
  else if st.currentSection.isSome then
    ⟨st.sections, st.currentSection, st.currentContent ++ [line], st.sectionName⟩
  else st

def parseLinesFrom (st : ParseState) (i : Nat) : List Chars → ParseState
  | [] => st
  | l :: rest => parseLinesFrom (parseStep st i l) (i + 1) rest

/-- Model of `parseDocumentation(text)` restricted to its effect on
`this.sections`: `sections0` is the map held by the instance before the
call (empty for a fresh instance). -/
def parseDocumentation (sections0 : SectionsMap) (text : String) : SectionsMap :=
  let lines := splitLines text.data
  let st := parseLinesFrom ⟨sections0, none, [], ""⟩ 0 lines
  let st := if st.currentSection.isSome && !st.currentContent.isEmpty
    then flushItem st else st
  st.sections

/-! ## JSON values and `JSON.parse`

`JSON.parse` is the JavaScript standard library; the indexer and title
extractor call it on record snippets carved out of item contents.  The model
below parses the JSON subset those records use (objects, arrays, strings
with simple escapes, integer numerals, `true`/`false`/`null`); inputs
outside the subset (floating numerals, `\u` escapes) are rejected, i.e.
treated like a parse failure.  Duplicate keys resolve to the last
occurrence, as in JavaScript. -/

inductive Json where
  | jnull
  | jbool (b : Bool)
  | jnum (n : Int)
  | jstr (s : String)
  | jarr (elems : List Json)
  | jobj (fields : List (String × Json))
deriving Repr, Inhabited

def lbraceChar : Char := Char.ofNat 123

def rbraceChar : Char := Char.ofNat 125

def quoteChar : Char := Char.ofNat 39

/-- The escape table of JSON strings, by character code: quote, backslash,
slash map to themselves; `n`, `t`, `r`, `b`, `f` map to their control
characters; `\u` escapes are unused in the modelled corpora and rejected. -/
def jsonUnescape (c : Char) : Option Char :=
  match c.toNat with
  | 34 => some (Char.ofNat 34)
  | 92 => some (Char.ofNat 92)
  | 47 => some (Char.ofNat 47)
  | 110 => some (Char.ofNat 10)
  | 116 => some (Char.ofNat 9)
  | 114 => some (Char.ofNat 13)
  | 98 => some (Char.ofNat 8)
  | 102 => some (Char.ofNat 12)
  | _ => none

def parseJsonStrAux : Chars → Chars → Option (String × Chars)
  | [], _ => none
  | c :: rest, acc =>
    if c == '"' then some (String.mk acc.reverse, rest)
    else if c == '\\' then
      match rest with
      | [] => none
      | e :: rest2 =>
        match jsonUnescape e with
        | some ch => parseJsonStrAux rest2 (ch :: acc)
        | none => none
    else parseJsonStrAux rest (c :: acc)

def digitsToNat (ds : Chars) : Nat :=
  ds.foldl (fun a c => a * 10 + (c.toNat - 48)) 0

def parseJsonNum (cs : Chars) : Option (Int × Chars) :=
  let (neg, cs1) :=
    match cs with
    | c :: t => if c == '-' then (true, t) else (false, cs)
    | [] => (false, cs)
  let ds := cs1.takeWhile Char.isDigit
  if ds.isEmpty then none
  else
    let rest := cs1.dropWhile Char.isDigit
    let n : Int := digitsToNat ds
    some (if neg then -n else n, rest)

mutual

def parseJsonVal : Nat → Chars → Option (Json × Chars)
  | 0, _ => none
  | Nat.succ f, cs0 =>
    let cs := cs0.dropWhile isWsChar
    match cs with
    | [] => none
    | c :: rest =>
      if c == lbraceChar then
        let cs1 := rest.dropWhile isWsChar
        match cs1 with
        | d :: rest1 =>
          if d == rbraceChar then some (Json.jobj [], rest1)
          else parseJsonFields f cs1 []
        | [] => none
      else if c == '[' then
        let cs1 := rest.dropWhile isWsChar
        match cs1 with
        | d :: rest1 =>
          if d == ']' then some (Json.jarr [], rest1)
          else parseJsonElems f cs1 []
        | [] => none
      else if c == '"' then
        (parseJsonStrAux rest []).map (fun p => (Json.jstr p.1, p.2))
      else if c == 't' then
        if startsWithStr rest "rue" then some (Json.jbool true, rest.drop 3)
        else none
      else if c == 'f' then
        if startsWithStr rest "alse" then some (Json.jbool false, rest.drop 4)
        else none
      else if c == 'n' then
        if startsWithStr rest "ull" then some (Json.jnull, rest.drop 3)
        else none
      else
        (parseJsonNum cs).map (fun p => (Json.jnum p.1, p.2))

def parseJsonFields : Nat → Chars → List (String × Json) → Option (Json × Chars)
  | 0, _, _ => none
  | Nat.succ f, cs0, acc =>
    let cs := cs0.dropWhile isWsChar
    match cs with
    | [] => none
    | c :: rest =>
      if c == '"' then
        match parseJsonStrAux rest [] with
        | none => none
        | some (key, cs1) =>
          match cs1.dropWhile isWsChar with
          | [] => none
          | d :: rest1 =>
            if d == ':' then
              match parseJsonVal f rest1 with
              | none => none
              | some (v, cs2) =>
                match cs2.dropWhile isWsChar with
                | [] => none
                | e :: rest2 =>
                  if e == ',' then parseJsonFields f rest2 (acc ++ [(key, v)])
                  else if e == rbraceChar then
                    some (Json.jobj (acc ++ [(key, v)]), rest2)
                  else none
            else none
      else none

def parseJsonElems : Nat → Chars → List Json → Option (Json × Chars)
  | 0, _, _ => none
  | Nat.succ f, cs, acc =>
    match parseJsonVal f cs with
    | none => none
    | some (v, cs1) =>
      match cs1.dropWhile isWsChar with
      | [] => none
      | e :: rest =>
        if e == ',' then parseJsonElems f rest (acc ++ [v])
        else if e == ']' then some (Json.jarr (acc ++ [v]), rest)
        else none

end

/-- Model of `JSON.parse` returning `none` where the original throws. -/
def jsonParse (s : String) : Option Json :=
  match parseJsonVal (s.data.length + 1) s.data with
  | some (v, rest) => if (rest.dropWhile isWsChar).isEmpty then some v else none
  | none => none

/-- JavaScript property access `obj[key]` giving `undefined` (`none`) for
missing keys and for non-object receivers. -/
def jGet (j : Json) (key : String) : Option Json :=
  match j with
  | Json.jobj fields => (fields.reverse.find? (fun p => p.1 == key)).map (fun p => p.2)
  | _ => none

/-- Optional chaining `x?.key` where `x` may already be `undefined`;
`null` short-circuits to `undefined`. -/
def jGetChain (j : Option Json) (key : String) : Option Json :=
  match j with
  | some Json.jnull => none
  | some x => jGet x key
  | none => none

/-- JavaScript truthiness of a parsed JSON value. -/
def jTruthy : Json → Bool
  | Json.jnull => false
  | Json.jbool b => b
  | Json.jnum n => n != 0
  | Json.jstr s => s != ""
  | Json.jarr _ => true
  | Json.jobj _ => true

/-- JavaScript `a || b` on an optionally-present JSON value. -/
def jsOrJson (o : Option Json) (d : Json) : Json :=
  match o with
  | some v => if jTruthy v then v else d
  | none => d

/-! ## Title extraction (`extractTitle`, part_005 lines 548-628) -/

/-- The `genericPatterns` list (all tested with the `i` flag except the
version-number and list-item patterns, which contain no letters). -/
def isGenericTitle (t : Chars) : Bool :=
  let low := lowerChars t
  (startsWithStr low "for all" || startsWithStr low "for any" ||
   startsWithStr low "for most" || startsWithStr low "for some") ||
  (startsWithStr low "in this" || startsWithStr low "in these" ||
   startsWithStr low "in all" || startsWithStr low "in any") ||
  (startsWithStr low "with this" || startsWithStr low "with these" ||
   startsWithStr low "with all" || startsWithStr low "with any") ||
  (startsWithStr low "using this" || startsWithStr low "using these" ||
   startsWithStr low "using all" || startsWithStr low "using any") ||
  (startsWithStr low "note:" || startsWithStr low "warning:" ||
   startsWithStr low "tip:" || startsWithStr low "important:") ||
  (startsWithStr low "here is" || startsWithStr low "here are" ||
   startsWithStr low "there is" || startsWithStr low "there are" ||
   startsWithStr low "this is" || startsWithStr low "this are" ||
   startsWithStr low "that is" || startsWithStr low "that are") ||
  (startsWithStr low "http://" || startsWithStr low "https://") ||
  (!t.isEmpty && t.all (fun c => c.isDigit || c == '.')) ||
  (match t with
   | c :: d :: _ => (c == '-' || c == '*' || c == '+') && isWsChar d
   | _ => false)

def isQuoteChar (c : Char) : Bool :=
  c == '"' || c == quoteChar

/-- Value part of the front-matter regex on one `title:` line:
`title:\s*["']?([^"'\n]+)["']?\s*` up to the line end, with the capture
trimmed as in the source.  The exotic case where the `\s*` after `title:`
crosses the newline is outside this line-structured model. -/
def fmLineValue (after : Chars) : Option String :=
  let v1 := after.dropWhile isWsChar
  match v1 with
  | [] => if after.isEmpty then none else some ""
  | q :: t =>
    let body := if isQuoteChar q then t else v1
    let cap := body.takeWhile (fun c => !isQuoteChar c)
    let rest := body.dropWhile (fun c => !isQuoteChar c)
    if cap.isEmpty then none
    else
      match rest with
      | [] => some (String.mk (trimChars cap))
      | _ :: r2 => if r2.all isWsChar then some (String.mk (trimChars cap)) else none

def fmScan : List Chars → Option String
  | [] => none
  | l :: rest =>
    if startsWithStr (lowerChars l) "title:" then
      match fmLineValue (l.drop 6) with
      | some v => if rest.any (fun l2 => startsWithStr l2 "---") then some v else fmScan rest
      | none => fmScan rest
    else fmScan rest

/-- The front-matter match (the regex, flag `i`, is
`^---\s*\n(?:.*\n)*?title:\s*["quote]?([^"quote\n]+)["quote]?\s*\n(?:.*\n)*?` followed
by three hyphens): an opening `---` line, the earliest matching `title:`
line after it, and a later line starting with `---`. -/
def frontmatterTitle (content : Chars) : Option String :=
  match splitLines content with
  | [] => none
  | l0 :: rest =>
    let opens :=
      match l0 with
      | '-' :: '-' :: '-' :: tail => tail.all isWsChar
      | _ => false
    if opens && !rest.isEmpty then fmScan rest else none

/-- The per-line header match `/^#+\s+(.+)$/` returning the capture. -/
def headerCapture (line : Chars) : Option Chars :=
  let hashes := line.takeWhile (fun c => c == '#')
  let rest := line.dropWhile (fun c => c == '#')
  if hashes.isEmpty then none
  else
    match rest with
    | [] => none
    | c :: _ =>
      if !isWsChar c then none
      else
        let tail := rest.dropWhile isWsChar
        if !tail.isEmpty then some tail
        else if rest.length ≥ 2 then some [rest.getLast?.getD ' ']
        else none

/-- The header loop of `extractTitle`: first non-generic header whose
trimmed text is longer than 3 characters. -/
def extractTitleHeaderScan : List Chars → Option String
  | [] => none
  | l :: rest =>
    match headerCapture l with
    | some cap =>
      let title := trimChars cap
      if !isGenericTitle title && decide (title.length > 3) then some (String.mk title)
      else extractTitleHeaderScan rest
    | none => extractTitleHeaderScan rest

/-- Leftmost-longest match of `/\{[\s\S]*"data"[\s\S]*\}/`: from the first
opening brace that is followed by a `"data"` occurrence with a closing
brace after it, through the last closing brace of the text. -/
def hasDataThenBrace (cs : Chars) : Bool :=
  let dq : Chars := '"' :: 'd' :: 'a' :: 't' :: 'a' :: '"' :: []
  match firstIdx cs dq with
  | some q => (cs.drop (q + 6)).any (fun c => c == rbraceChar)
  | none => false

def titleJsonMatchAux : Chars → Option Chars
  | [] => none
  | c :: t =>
    if c == lbraceChar && hasDataThenBrace t then
      let whole := c :: t
      let lastBrace := whole.length - 1 - ((firstIdx whole.reverse [rbraceChar]).getD 0)
      some (whole.take (lastBrace + 1))
    else titleJsonMatchAux t

def titleJsonMatch (content : Chars) : Option Chars :=
  titleJsonMatchAux content

/-- The `extractTitle` JSON branch: decode the matched record and return
`parsed.data?.attributes?.name` when it is a truthy string.  A truthy
non-string `name` would make the original return a non-string title; such
corpora are outside this `String`-typed model (no claim exercises them). -/
def titleFromJson (content : Chars) : Option String :=
  match titleJsonMatch content with
  | none => none
  | some sub =>
    match jsonParse (String.mk sub) with
    | none => none
    | some parsed =>
      let attrs := jGetChain (jGetChain (some parsed) "data") "attributes"
      match jGetChain attrs "name" with
      | some (Json.jstr s) => if s == "" then none else some s
      | _ => none

/-- The fallback loop of `extractTitle`: first meaningful line, first
sentence extracted when the line is long, both truncated to 100
characters. -/
def fallbackScan : List Chars → Option String
  | [] => none
  | line :: rest =>
    let t := trimChars line
    if t.isEmpty ||
       t.all (fun c => c == '-' || c == '=') ||
       t.head? == some lbraceChar ||
       t.head? == some '[' ||
       startsWithStr t "```" ||
       startsWithStr t "http://" || startsWithStr t "https://" then
      fallbackScan rest
    else if isGenericTitle t then fallbackScan rest
    else if decide (t.length > 10) then
      let body := t.takeWhile (fun c => !(c == '.' || c == '!' || c == '?'))
      if decide (body.length < t.length) && !body.isEmpty then
        let punct := (t.drop body.length).head?.getD '.'
        some (String.mk ((trimChars (body ++ [punct])).take 100))
      else some (String.mk (t.take 100))
    else fallbackScan rest

/-- Model of `extractTitle(content)` (part_005 lines 548-628). -/
def extractTitle (content : String) : String :=
  let cs := content.data
  let lines := splitLines cs
  match frontmatterTitle cs with
  | some t => t
  | none =>
    match extractTitleHeaderScan lines with
    | some t => t
    | none =>
      match titleFromJson cs with
      | some t => t
      | none =>
        match fallbackScan lines with
        | some t => t
        | none => "Untitled"

/-! ## API indexing (`indexApiDocs`, part_005 lines 154-218)

The calls into the deprecation manager (`analyzeContent`,
`registerDeprecation`) mutate the deprecation collaborator's own state, not
the API index, and are omitted; no claim concerns them. -/

/-- Model of `split(sep)` for a single-character separator (keeps empty
parts). -/
def splitOnCharAux (sep : Char) : Chars → Chars → List Chars
  | [], acc => [acc.reverse]
  | c :: t, acc =>
    if c == sep then acc.reverse :: splitOnCharAux sep t []
    else splitOnCharAux sep t (c :: acc)

def splitOnChar (sep : Char) (cs : Chars) : List Chars :=
  splitOnCharAux sep cs []

/-- Model of `String.prototype.lastIndexOf` for one character. -/
def lastIdxOf (cs : Chars) (ch : Char) : Option Nat :=
  match firstIdx cs.reverse [ch] with
  | some i => some (cs.length - 1 - i)
  | none => none

/-- Lines 161-171: trim the content, carve out the substring from the first
opening brace through the last closing brace. -/
def extractJsonPart (content : String) : Option String :=
  let c := trimChars content.data
  match firstIdx c [lbraceChar] with
  | none => none
  | some jsonStart =>
    match lastIdxOf c rbraceChar with
    | none => none
    | some jsonEnd =>
      if jsonEnd ≤ jsonStart then none
      else some (String.mk ((c.take (jsonEnd + 1)).drop jsonStart))

/-- Property access that succeeds only on a truthy value (the pattern
`if (x && x.f)` / `a || b`). -/
def jGetTruthy (j : Json) (key : String) : Option Json :=
  match jGet j key with
  | some v => if jTruthy v then some v else none
  | none => none

/-- Lines 159-177: decode one API item down to the accepted
`(data, attributes, name)` triple.  Failure (`none`) covers: no brace pair,
`JSON.parse` throwing, falsy/absent `data` or `attributes`, both `name` and
`shortname` falsy, and a truthy non-string name (on which the original's
`name.toLowerCase()` would throw inside the try block before any
registration). -/
def decodeApiRecord (content : String) : Option (Json × Json × String) :=
  match extractJsonPart content with
  | none => none
  | some jsonStr =>
    match jsonParse jsonStr with
    | none => none
    | some parsed =>
      match jGetTruthy parsed "data" with
      | none => none
      | some data =>
        match jGetTruthy data "attributes" with
        | none => none
        | some attrs =>
          let nameV := match jGetTruthy attrs "name" with
            | some v => some v
            | none => jGetTruthy attrs "shortname"
          match nameV with
          | some (Json.jstr s) => some (data, attrs, s)
          | _ => none

structure ApiEntry where
  name : String
  type : Option Json
  module : Option Json
  description : Option Json
  file : Option Json
  line : Option Json
  extendsRef : Option Json
  methods : Json
  properties : Json
  rawData : Json
deriving Repr

/-- The `apiEntry` object literal of lines 178-189 (`extends` is a Lean
keyword, hence the field name `extendsRef`). -/
def mkApiEntry (data attrs : Json) (name : String) : ApiEntry :=
  { name := name
  , type := jGet data "type"
  , module := jGet attrs "module"
  , description := jGet attrs "description"
  , file := jGet attrs "file"
  , line := jGet attrs "line"
  , extendsRef := jGet attrs "extends"
  , methods := jsOrJson (jGet attrs "methods") (Json.jarr [])
  , properties := jsOrJson (jGet attrs "properties") (Json.jarr [])
  , rawData := data }

/-- JavaScript `Map.set` on the API index (update in place, append new
keys). -/
def apiMapSet : List (String × ApiEntry) → String → ApiEntry → List (String × ApiEntry)
  | [], k, v => [(k, v)]
  | (k2, v2) :: rest, k, v =>
    if k2 == k then (k2, v) :: rest else (k2, v2) :: apiMapSet rest k v

def apiMapGet : List (String × ApiEntry) → String → Option ApiEntry
  | [], _ => none
  | (k2, v) :: rest, k => if k2 == k then some v else apiMapGet rest k

/-- Whether the `attrs.module` value cannot make the original throw between
the first and the dotted registration: absent, falsy, or a string. -/
def moduleSafe (attrs : Json) : Bool :=
  match jGet attrs "module" with
  | some (Json.jstr _) => true
  | some v => !jTruthy v
  | none => true

/-- Lines 157-215: process one API item inside its try/catch — decode,
then register the entry under the lower-cased name, the lower-cased module
when it is a truthy value (a truthy non-string module makes
`attrs.module.toLowerCase()` throw after the first registration: the keys
set so far are kept, mirroring the catch), and the lower-cased last `.`
segment of the name. -/
def indexApiItem (idx : List (String × ApiEntry)) (content : String) :
    List (String × ApiEntry) :=
  match decodeApiRecord content with
  | none => idx
  | some (data, attrs, name) =>
    let entry := mkApiEntry data attrs name
    let doDot := fun (ix : List (String × ApiEntry)) =>
      if containsSub name.data ['.'] then
        apiMapSet ix (String.mk (lowerChars (((splitOnChar '.' name.data).getLast?).getD [])))
          entry
      else ix
    let idx1 := apiMapSet idx (String.mk (lowerChars name.data)) entry
    match jGet attrs "module" with
    | some m =>
      if jTruthy m then
        match m with
        | Json.jstr ms => doDot (apiMapSet idx1 (String.mk (lowerChars ms.data)) entry)
        | _ => idx1
      else doDot idx1
    | none => doDot idx1

/-- Model of `indexApiDocs()` over `this.sections["api-docs"] || []`,
threading the instance's `apiIndex` (empty in the constructor). -/
def indexApiDocs (sections : SectionsMap) (idx0 : List (String × ApiEntry)) :
    List (String × ApiEntry) :=
  (mapLookup sections "api-docs").foldl (fun idx item => indexApiItem idx item.content) idx0

/-- The lookup `this.apiIndex.get(name.toLowerCase())` performed by
`getApiReference`. -/
def apiLookup (idx : List (String × ApiEntry)) (name : String) : Option ApiEntry :=
  apiMapGet idx (String.mk (lowerChars name.data))

/-- A well-formed API record (used as a concrete corpus in theorems). -/
def goodApiDoc : String :=
  "## Component\n\n\x7b \"data\": \x7b \"type\": \"class\", \"attributes\": \x7b \"name\": \"Ember.Component\", \"module\": \"@ember/component\", \"description\": \"A component\" \x7d \x7d \x7d"

/-- A malformed API record: its brace-carved substring is unbalanced, so
`JSON.parse` throws. -/
def badApiDoc : String :=
  "\x7b \"data\": \x7b \"attributes\": \x7b \"name\": \"Broken\" \x7d \x7d"

/-- The decoded `attributes` of `goodApiDoc`. -/
def goodApiAttrs : Json :=
  Json.jobj [("name", Json.jstr "Ember.Component"),
    ("module", Json.jstr "@ember/component"),
    ("description", Json.jstr "A component")]

/-- The decoded `data` of `goodApiDoc`. -/
def goodApiData : Json :=
  Json.jobj [("type", Json.jstr "class"), ("attributes", goodApiAttrs)]

/-! ## Search configuration (`SEARCH_CONFIG`, src/lib/config.js) -/

namespace SEARCH_CONFIG

def EXACT_PHRASE_BONUS : Nat := 50

def TITLE_MATCH_BONUS : Nat := 15

def TERM_MATCH_WEIGHT : Nat := 2

def ALL_TERMS_BONUS : Nat := 20

def PROXIMITY_THRESHOLD : Nat := 500

def PROXIMITY_BONUS_DIVISOR : Nat := 50

def MIN_SCORE : Nat := 10

def MIN_SCORE_SINGLE_TERM : Nat := 20

def BP_TERM_MATCH_WEIGHT : Nat := 15

def BP_ALL_TERMS_BONUS : Nat := 20

def BP_STRONG_KEYWORD_WEIGHT : Nat := 5

def BP_WEAK_KEYWORD_WEIGHT : Nat := 2

def BP_MIN_THRESHOLD : Nat := 10

def MAX_BEST_PRACTICES : Nat := 5

end SEARCH_CONFIG

/-! ## Keyword search (`keywordSearch`, part_005 lines 395-497)

Search results are modelled by one record type `SResult` covering the
fields produced by the keyword ranker, the semantic ranker and the hybrid
merger (the JavaScript objects are duck-typed; absent numeric fields are
`none`).  The `excerpt`, `apiLink` and `deprecationInfo` fields of the
original results are omitted: the first two are produced by collaborators
(`extractExcerpt` clean-up, the url-builder module which is not among the
provided sources) and none of the claims concerns them; likewise `url` is
kept as a field (it is part of the merge key of claim C3) but the keyword
ranker fills it with `""` since `generateUrl` is not among the provided
sources and no claim constrains its value. -/

structure SResult where
  title : String
  category : String := ""
  url : String := ""
  score : ℚ
  keywordScore : Option ℚ := none
  semanticScore : Option ℚ := none
  matchedTerms : Option Nat := none
  totalTerms : Option Nat := none
  searchType : String := ""
  hasKeywordMatch : Bool := false
  hasSemanticMatch : Bool := false
  hybridScore : ℚ := 0
deriving DecidableEq, Repr

def categorizeSectionName (s : String) : String :=
  if s == "api-docs" then "API Documentation"
  else if s == "community-bloggers" then "Community Articles"
  else "Guides & Tutorials"

def sectionsToSearch (sections : SectionsMap) (category : String) : List String :=
  if category == "all" then sections.map (fun p => p.1)
  else if category == "api" then ["api-docs"]
  else if category == "guides" then
    (sections.map (fun p => p.1)).filter
      (fun s => !(s == "api-docs" || s == "community-bloggers"))
  else if category == "community" then ["community-bloggers"]
  else []

/-- Accumulator of the per-item scoring loop: `score`, `matchedTerms`,
`termPositions` of `keywordSearch`. -/
structure ScoreAcc where
  score : Nat
  matchedTerms : List Chars
  termPositions : List (Chars × Nat)
deriving DecidableEq, Repr

/-- One iteration of `searchTerms.forEach` (lines 433-452). -/
def processTerm (content titleLower : Chars) (acc : ScoreAcc) (term : Chars) : ScoreAcc :=
  let matchCount := countOccur content term
  if matchCount > 0 then
    let acc1 := { acc with matchedTerms := acc.matchedTerms ++ [term] }
    let acc2 := if containsSub titleLower term then
        { acc1 with score := acc1.score + SEARCH_CONFIG.TITLE_MATCH_BONUS }
      else acc1
    let acc3 := { acc2 with score := acc2.score + matchCount * SEARCH_CONFIG.TERM_MATCH_WEIGHT }
    match firstIdx content term with
    | some pos => { acc3 with termPositions := acc3.termPositions ++ [(term, pos)] }
    | none => acc3
  else acc

def processTerms (content titleLower : Chars) (acc : ScoreAcc) : List Chars → ScoreAcc
  | [] => acc
  | t :: ts => processTerms content titleLower (processTerm content titleLower acc t) ts

/-- The exact-phrase check (lines 427-430) followed by the term loop. -/
def scoreItemAcc (queryLower : Chars) (searchTerms : List Chars)
    (content titleLower : Chars) : ScoreAcc :=
  let acc0 : ScoreAcc := ⟨0, [], []⟩
  let acc1 := if containsSub content queryLower then
      { acc0 with score := SEARCH_CONFIG.EXACT_PHRASE_BONUS, matchedTerms := [queryLower] }
    else acc0
  processTerms content titleLower acc1 searchTerms

/-- Stable insertion into a list sorted ascending by position; models the
stable `termPositions.sort((a, b) => a.pos - b.pos)`. -/
def insPosAsc (x : Chars × Nat) : List (Chars × Nat) → List (Chars × Nat)
  | [] => [x]
  | y :: ys => if x.2 ≤ y.2 then x :: y :: ys else y :: insPosAsc x ys

def sortPosAsc (l : List (Chars × Nat)) : List (Chars × Nat) :=
  l.foldr insPosAsc []

/-- The all-terms bonus and proximity bonus (lines 455-467) applied on top
of the accumulated score. -/
def finalizeScore (searchTerms : List Chars) (acc : ScoreAcc) : Nat :=
  if acc.matchedTerms.length == searchTerms.length then
    let base := acc.score + SEARCH_CONFIG.ALL_TERMS_BONUS
    if decide (acc.termPositions.length > 1) then
      let sorted := sortPosAsc acc.termPositions
      let spread := ((sorted.getLast?.map (fun p => p.2)).getD 0)
        - ((sorted.head?.map (fun p => p.2)).getD 0)
      if spread < SEARCH_CONFIG.PROXIMITY_THRESHOLD then
        base + (SEARCH_CONFIG.PROXIMITY_THRESHOLD - spread) / SEARCH_CONFIG.PROXIMITY_BONUS_DIVISOR
      else base
    else base
  else acc.score

/-- The inclusion gate and result construction for one item
(lines 416-490). -/
def keywordItemResult (sectionName : String) (queryLower : Chars)
    (searchTerms : List Chars) (item : ParsedItem) : Option SResult :=
  let content := lowerChars item.content.data
  let title := extractTitle item.content
  let titleLower := lowerChars title.data
  let acc := scoreItemAcc queryLower searchTerms content titleLower
  let score := finalizeScore searchTerms acc
  if decide (score ≥ SEARCH_CONFIG.MIN_SCORE) &&
      (decide (acc.matchedTerms.length ≥ 2) ||
       decide (score ≥ SEARCH_CONFIG.MIN_SCORE_SINGLE_TERM)) then
    some { title := title, category := categorizeSectionName sectionName,
           url := "", score := (score : ℚ), keywordScore := some ((score : Nat) : ℚ),
           matchedTerms := some acc.matchedTerms.length,
           totalTerms := some searchTerms.length, searchType := "keyword" }
  else none

/-- The unsorted result accumulation over all searched sections. -/
def keywordCandidates (sections : SectionsMap) (query category : String) : List SResult :=
  let queryLower := lowerChars query.data
  let searchTerms := splitWs queryLower
  (sectionsToSearch sections category).flatMap (fun name =>
    (mapLookup sections name).filterMap (keywordItemResult name queryLower searchTerms))

/-- Stable insertion into a list sorted descending by the key; models the
stable `Array.prototype.sort` with comparator `(a, b) => key(b) - key(a)`
(a stable sort's output is determined by the comparator alone). -/
def insDesc {α : Type} (key : α → ℚ) (x : α) : List α → List α
  | [] => [x]
  | y :: ys => if key x < key y then y :: insDesc key x ys else x :: y :: ys

def sortDescBy {α : Type} (key : α → ℚ) (l : List α) : List α :=
  l.foldr (insDesc key) []

/-- Model of `keywordSearch(query, category, limit)`. -/
def keywordSearch (sections : SectionsMap) (query category : String) (limit : Nat) : List SResult :=
  (sortDescBy (fun r => r.score) (keywordCandidates sections query category)).take limit

/-! ### Closed-form components of the keyword score (for claim C1) -/

/-- Contribution of one entry of the term list: title bonus plus
frequency weight when the term occurs. -/
def termSlotScore (content titleLower : Chars) (t : Chars) : Nat :=
  if countOccur content t > 0 then
    (if containsSub titleLower t then SEARCH_CONFIG.TITLE_MATCH_BONUS else 0)
      + countOccur content t * SEARCH_CONFIG.TERM_MATCH_WEIGHT
  else 0

/-- Number of entries of the term list that occur in the content
(duplicated terms counted once per entry, as in the source). -/
def matchedSlots (content : Chars) (ts : List Chars) : Nat :=
  (ts.filter (fun t => countOccur content t > 0)).length

/-- First-occurrence positions collected by the term loop. -/
def slotPositions (content : Chars) (ts : List Chars) : List (Chars × Nat) :=
  ts.filterMap (fun t =>
    if countOccur content t > 0 then (firstIdx content t).map (fun p => (t, p)) else none)

/-- Proximity bonus as a function of the collected positions. -/
def proxBonus (ps : List (Chars × Nat)) : Nat :=
  if decide (ps.length > 1) then
    let sorted := sortPosAsc ps
    let spread := ((sorted.getLast?.map (fun p => p.2)).getD 0)
      - ((sorted.head?.map (fun p => p.2)).getD 0)
    if spread < SEARCH_CONFIG.PROXIMITY_THRESHOLD then
      (SEARCH_CONFIG.PROXIMITY_THRESHOLD - spread) / SEARCH_CONFIG.PROXIMITY_BONUS_DIVISOR
    else 0
  else 0

/-- Modelled from the spec, claim C1: the additive scoring formula as the
specification states it — phrase bonus, per-term title bonus and frequency,
and, whenever every query term is present, the flat all-terms bonus plus
the proximity bonus computed from the span between the first and last
matched-term position. -/
def specKeywordScore (query content title : String) : Nat :=
  let queryLower := lowerChars query.data
  let terms := splitWs queryLower
  let contentL := lowerChars content.data
  let titleLower := lowerChars title.data
  let phrase := if containsSub contentL queryLower then 50 else 0
  let termsSum := (terms.map (fun t =>
    if countOccur contentL t > 0 then
      (if containsSub titleLower t then 15 else 0) + 2 * countOccur contentL t
    else 0)).sum
  let allPresent := terms.all (fun t => countOccur contentL t > 0)
  let positions := terms.filterMap (fun t =>
    if countOccur contentL t > 0 then firstIdx contentL t else none)
  let maxPos := positions.foldl Nat.max 0
  let minPos := positions.foldl Nat.min (positions.head?.getD 0)
  let span := maxPos - minPos
  let bonus := if allPresent && !terms.isEmpty then
      20 + (if span < 500 then (500 - span) / 50 else 0)
    else 0
  phrase + termsSum + bonus

/-- Modelled from the spec, claim C2: the inclusion gate as the
specification states it — minimum score, and at least two *distinct*
matched query terms or the stricter single-term minimum.  The score is the
one the ranker assigns (the embedded code score), so the only point at
issue is the distinct-terms condition. -/
def specKeywordGate (query content : String) : Bool :=
  let queryLower := lowerChars query.data
  let terms := splitWs queryLower
  let contentL := lowerChars content.data
  let titleLower := lowerChars (extractTitle content).data
  let distinctMatched := ((terms.filter (fun t => countOccur contentL t > 0)).eraseDups).length
  let score := finalizeScore terms (scoreItemAcc queryLower terms contentL titleLower)
  decide (score ≥ 10) && (decide (distinctMatched ≥ 2) || decide (score ≥ 20))

/-- The score the ranker assigns to one item for a query (the value the
gate and the result record use). -/
def itemScoreOf (query : String) (item : ParsedItem) : Nat :=
  let queryLower := lowerChars query.data
  let ts := splitWs queryLower
  finalizeScore ts (scoreItemAcc queryLower ts (lowerChars item.content.data)
    (lowerChars (extractTitle item.content).data))

/-- The length of the ranker's `matchedTerms` list for one item (it counts
the verbatim-phrase entry and duplicated query terms separately). -/
def itemMatchedLen (query : String) (item : ParsedItem) : Nat :=
  let queryLower := lowerChars query.data
  let ts := splitWs queryLower
  (scoreItemAcc queryLower ts (lowerChars item.content.data)
    (lowerChars (extractTitle item.content).data)).matchedTerms.length

/-! ## Hybrid merge (`mergeSearchResults`, part_005 lines 506-546)

The `resultMap` is a JavaScript `Map` keyed by `title + url`: modelled as an
insertion-ordered association list where `set` updates an existing key in
place and appends a new key at the end, exactly the `Map` iteration
order. -/

/-- JavaScript `a || b` for an optionally present number (`0` is falsy). -/
def jsOrQ (o : Option ℚ) (d : ℚ) : ℚ :=
  match o with
  | some v => if v = 0 then d else v
  | none => d

def mapSetR : List (String × SResult) → String → SResult → List (String × SResult)
  | [], k, v => [(k, v)]
  | (k2, v2) :: rest, k, v =>
    if k2 == k then (k2, v) :: rest else (k2, v2) :: mapSetR rest k v

def mapGetR (m : List (String × SResult)) (k : String) : Option SResult :=
  (m.find? (fun p => p.1 == k)).map (fun p => p.2)

def mergeKey (r : SResult) : String :=
  r.title ++ r.url

/-- Model of `mergeSearchResults(keywordResults, semanticResults)`:
keyword results enter with weight 0.6, semantic results are merged in with
weight 0.4 (documents found by both are boosted and tagged `hybrid`), the
map values get `score := hybridScore` and are sorted descending by hybrid
score. -/
def mergeSearchResults (keywordResults semanticResults : List SResult) : List SResult :=
  let m1 := keywordResults.foldl (fun m r =>
    mapSetR m (mergeKey r)
      { r with hybridScore := jsOrQ r.keywordScore r.score * (0.6 : ℚ),
               hasKeywordMatch := true }) []
  let m2 := semanticResults.foldl (fun m r =>
    match mapGetR m (mergeKey r) with
    | some existing =>
      mapSetR m (mergeKey r)
        { existing with
            hybridScore := existing.hybridScore + jsOrQ r.semanticScore r.score * (0.4 : ℚ),
            hasSemanticMatch := true, searchType := "hybrid" }
    | none =>
      mapSetR m (mergeKey r)
        { r with hybridScore := jsOrQ r.semanticScore r.score * (0.4 : ℚ),
                 hasSemanticMatch := true }) m1
  let merged := (m2.map (fun p => p.2)).map (fun r => { r with score := r.hybridScore })
  sortDescBy (fun r => r.hybridScore) merged

/-! ## Best-practices extraction (`getBestPractices`, part_005 lines 809-917,
and `extractBestPracticeSections`, lines 919-1018)

The `pluralize` library is an external collaborator: its `singular` and
`plural` functions enter as parameters `singularOf` / `pluralOf`.  The
`references` field of a practice (built by the absent url-builder module)
is omitted; no claim concerns it. -/

def BEST_PRACTICES_KEYWORDS_strong : List String :=
  ["best practice", "recommended approach", "modern pattern", "idiomatic",
   "anti-pattern", "avoid", "prefer", "migration guide"]

def BEST_PRACTICES_KEYWORDS_weak : List String :=
  ["tip", "performance", "recommended", "should", "modern"]

/-- The flexible topic-term match of lines 838-850: exact, singularised or
pluralised form. -/
def termMatchesContent (singularOf pluralOf : String → String) (content : Chars)
    (term : String) : Bool :=
  containsSub content term.data ||
  (singularOf term != term && containsSub content (singularOf term).data) ||
  (pluralOf term != term && containsSub content (pluralOf term).data)

/-- The relevance score of lines 855-874 (sequential accumulation as in
the source; only meaningful when at least one topic term matched). -/
def bpDocScore (singularOf pluralOf : String → String) (topicTerms : List String)
    (content : Chars) : Nat :=
  let matchedTerms := topicTerms.filter (termMatchesContent singularOf pluralOf content)
  let score := 0
  let score := score + matchedTerms.length * SEARCH_CONFIG.BP_TERM_MATCH_WEIGHT
  let score := if matchedTerms.length == topicTerms.length
    then score + SEARCH_CONFIG.BP_ALL_TERMS_BONUS else score
  let strongMatches :=
    BEST_PRACTICES_KEYWORDS_strong.filter (fun kw => containsSub content kw.data)
  let score := score + strongMatches.length * SEARCH_CONFIG.BP_STRONG_KEYWORD_WEIGHT
  let score := if decide (strongMatches.length > 0) then
      score + (BEST_PRACTICES_KEYWORDS_weak.filter
        (fun kw => containsSub content kw.data)).length * SEARCH_CONFIG.BP_WEAK_KEYWORD_WEIGHT
    else score
  score

/-- The per-line scan state of `extractBestPracticeSections`. -/
structure BPScan where
  relevantContent : List Chars
  examples : List Chars
  antiPatterns : List Chars
  inCodeBlock : Bool
  currentExample : List Chars
  foundRelevant : Bool
deriving Repr

/-- The regex `/^[#\-=]+$/` of line 1000. -/
def isStructuralLine (l : Chars) : Bool :=
  !l.isEmpty && l.all (fun c => c == '#' || c == '-' || c == '=')

/-- The regex `/^# [^#]/` of line 1008 (section break). -/
def isTopHeaderLine (l : Chars) : Bool :=
  match l with
  | '#' :: ' ' :: c :: _ => !(c == '#')
  | _ => false

/-- The line containing negative-guidance keywords (lines 982-987). -/
def isAntiPatternLine (lineLower : Chars) : Bool :=
  containsSub lineLower "avoid".data ||
  containsSub lineLower "don\x27t".data ||
  containsSub lineLower "anti-pattern".data ||
  containsSub lineLower "bad practice".data

/-- The loop of `extractBestPracticeSections` (lines 931-1011), with the
`break` on a top-level header modelled by stopping the recursion. -/
def bpScan (singularOf pluralOf : String → String) (topicTerms : List String) :
    List Chars → BPScan → BPScan
  | [], st => st
  | line :: rest, st =>
    let lineLower := lowerChars line
    if startsWithStr (trimChars line) "```" then
      if !st.inCodeBlock then
        bpScan singularOf pluralOf topicTerms rest
          { st with inCodeBlock := true, currentExample := [line] }
      else
        let st1 := { st with inCodeBlock := false,
                             currentExample := st.currentExample ++ [line] }
        let st2 := if st1.foundRelevant && decide (st1.currentExample.length > 2) then
            { st1 with examples := st1.examples ++ [joinWith ['\n'] st1.currentExample] }
          else st1
        bpScan singularOf pluralOf topicTerms rest { st2 with currentExample := [] }
    else if st.inCodeBlock then
      bpScan singularOf pluralOf topicTerms rest
        { st with currentExample := st.currentExample ++ [line] }
    else
      let st1 := if !st.foundRelevant then
          (if topicTerms.any (fun term =>
              containsSub lineLower term.data ||
              (singularOf term != term && containsSub lineLower (singularOf term).data) ||
              (pluralOf term != term && containsSub lineLower (pluralOf term).data))
           then { st with foundRelevant := true } else st)
        else st
      let st2 := if st1.foundRelevant && decide (st1.relevantContent.length < 50) then
          let stA := if isAntiPatternLine lineLower then
              (let nextLines := trimChars (joinWith [' '] ((line :: rest).take 3))
               if decide (nextLines.length > 10) && decide (nextLines.length < 200) then
                 { st1 with antiPatterns := st1.antiPatterns ++ [nextLines] }
               else st1)
            else st1
          if !(trimChars line).isEmpty && !isStructuralLine line
              && !((trimChars line).head? == some lbraceChar) then
            { stA with relevantContent := stA.relevantContent ++ [line] }
          else stA
        else st1
      if st2.foundRelevant && isTopHeaderLine line then st2
      else bpScan singularOf pluralOf topicTerms rest st2

/-- First-occurrence-order deduplication, the `[...new Set(xs)]` of
line 1016. -/
def dedupeKeepFirstAux : List Chars → List Chars → List Chars
  | [], _ => []
  | x :: rest, seen =>
    if seen.contains x then dedupeKeepFirstAux rest seen
    else x :: dedupeKeepFirstAux rest (x :: seen)

def dedupeKeepFirst (l : List Chars) : List Chars :=
  dedupeKeepFirstAux l []

structure BPSections where
  content : String
  examples : List String
  antiPatterns : List String
deriving DecidableEq, Repr

/-- Model of `extractBestPracticeSections(content, topic)`. -/
def extractBestPracticeSections (singularOf pluralOf : String → String)
    (content : String) (topic : String) : BPSections :=
  let lines := splitLines content.data
  let topicTerms := ((splitWs topic.data).map String.mk).filter
    (fun t => decide (t.length > 2))
  let st := bpScan singularOf pluralOf topicTerms lines ⟨[], [], [], false, [], false⟩
  { content := String.mk (trimChars (joinWith ['\n'] (st.relevantContent.take 30)))
  , examples := (st.examples.take 3).map String.mk
  , antiPatterns := ((dedupeKeepFirst st.antiPatterns).take 3).map String.mk }

structure Practice where
  title : String
  content : String
  examples : List String
  antiPatterns : List String
deriving DecidableEq, Repr

/-- Processing of one document of the loop at lines 830-908: flexible term
match gate, scoring, minimum threshold, case-insensitive title
deduplication (the title is recorded as seen *before* the content check),
and the push guarded by a non-empty extracted content section. -/
def bpProcessDoc (singularOf pluralOf : String → String) (topicTerms : List String)
    (topicLower : String) (acc : List (Practice × Nat) × List String)
    (doc : ParsedItem) : List (Practice × Nat) × List String :=
  let (practices, seenTitles) := acc
  let content := lowerChars doc.content.data
  let matchedTerms := topicTerms.filter (termMatchesContent singularOf pluralOf content)
  if matchedTerms.isEmpty then (practices, seenTitles)
  else
    let score := bpDocScore singularOf pluralOf topicTerms content
    if score < SEARCH_CONFIG.BP_MIN_THRESHOLD then (practices, seenTitles)
    else
      let title := extractTitle doc.content
      let titleLower := String.mk (lowerChars title.data)
      if seenTitles.contains titleLower then (practices, seenTitles)
      else
        let seenTitles := seenTitles ++ [titleLower]
        let relevantSections :=
          extractBestPracticeSections singularOf pluralOf doc.content topicLower
        if relevantSections.content != "" then
          (practices ++ [(⟨title, relevantSections.content, relevantSections.examples,
             relevantSections.antiPatterns⟩, score)], seenTitles)
        else (practices, seenTitles)

/-- The scored practice list before the cap and the score strip. -/
def bestPracticesScored (singularOf pluralOf : String → String)
    (sections : SectionsMap) (topic : String) : List (Practice × Nat) :=
  let topicLower := String.mk (lowerChars topic.data)
  let topicTerms := ((splitWs topicLower.data).map String.mk).filter
    (fun t => decide (t.length > 2))
  let communityDocs := mapLookup sections "community-bloggers"
  let allSections := communityDocs ++
    ((sections.filter (fun p => !(p.1 == "api-docs" || p.1 == "community-bloggers"))).flatMap
      (fun p => p.2))
  let (practices, _) :=
    allSections.foldl (bpProcessDoc singularOf pluralOf topicTerms topicLower) ([], [])
  sortDescBy (fun pr => ((pr.2 : ℚ))) practices

/-- Model of `getBestPractices(topic)`: sort by score descending, cap at
`MAX_BEST_PRACTICES`, strip the internal score. -/
def getBestPractices (singularOf pluralOf : String → String) (sections : SectionsMap)
    (topic : String) : List Practice :=
  ((bestPracticesScored singularOf pluralOf sections topic).take
    SEARCH_CONFIG.MAX_BEST_PRACTICES).map (fun pr => pr.1)

/-- Concrete stand-in for `pluralize.singular` on the words the theorems
use (identity: `component`, `widget` etc. are already singular). -/
def sgId : String → String := fun s => s

/-- Concrete stand-in for `pluralize.plural` on the words the theorems use
(append `s`, agreeing with `pluralize.plural` for `component` etc.). -/
def plS : String → String := fun s => s ++ "s"

/-- Concrete best-practice corpus documents used in the claim C9
theorems. -/
def bpDocA : ParsedItem :=
  ⟨"Modern Component Patterns\nUse components wisely. This is a best practice guide.\navoid heavy component logic", 0⟩

def bpDocB : ParsedItem :=
  ⟨"Modern Component Patterns\ncomponent tips again avoid something bad here", 5⟩

def bpDocC : ParsedItem :=
  ⟨"Totally Unrelated Doc\nnothing here", 9⟩

def bpDocD : ParsedItem :=
  ⟨"Another Component Note\ncomponent mentioned", 12⟩

/-! ## Embedding service (`EmbeddingService`, part_006) and semantic search
(part_005 lines 226-385)

The `@huggingface/transformers` pipeline is an external collaborator: the
outcome of `pipeline('feature-extraction', ...)` enters as a parameter of
type `Except String Embedder` (`.error` models the constructor throwing —
e.g. the model being unavailable), and an `Embedder` is the loaded model as
a total embedding function.  `Math.sqrt` likewise enters as a parameter of
`cosineSimilarity`.  Vector components are modelled as `ℚ`. -/

abbrev Embedder := String → List ℚ

structure EmbeddingServiceState where
  embedder : Option Embedder
  embeddingCache : List (String × List ℚ)
  initialized : Bool

/-- 32-bit signed wrap-around, the effect of `hash & hash` (`ToInt32`). -/
def wrap32 (n : Int) : Int :=
  ((n + 2 ^ 31) % 2 ^ 32) - 2 ^ 31

/-- The hash loop of `getCacheKey` (part_006 lines 182-193):
`hash = ((hash << 5) - hash) + charCode; hash = hash & hash` over the
first 500 characters. -/
def getCacheKeyHash (text : String) : Int :=
  (text.data.take 500).foldl
    (fun h c => wrap32 (wrap32 (h * 32) - h + (c.toNat : Int))) 0

def base36digit (d : Nat) : Char :=
  if d < 10 then Char.ofNat (48 + d) else Char.ofNat (87 + d)

def natToBase36Aux : Nat → Nat → Chars
  | 0, _ => []
  | Nat.succ f, n => if n = 0 then [] else natToBase36Aux f (n / 36) ++ [base36digit (n % 36)]

/-- `Number.prototype.toString(36)` for 32-bit integers. -/
def intToString36 (n : Int) : String :=
  if n = 0 then "0"
  else if n < 0 then String.mk ('-' :: natToBase36Aux n.natAbs n.natAbs)
  else String.mk (natToBase36Aux n.toNat n.toNat)

def getCacheKey (text : String) : String :=
  intToString36 (getCacheKeyHash text)

def cacheGet (cache : List (String × List ℚ)) (k : String) : Option (List ℚ) :=
  (cache.find? (fun p => p.1 == k)).map (fun p => p.2)

def cacheSet : List (String × List ℚ) → String → List ℚ → List (String × List ℚ)
  | [], k, v => [(k, v)]
  | (k2, v2) :: rest, k, v =>
    if k2 == k then (k2, v) :: rest else (k2, v2) :: cacheSet rest k v

/-- Model of `initialize()` (part_006 lines 26-42): idempotent, and a
pipeline failure is caught and recorded (`initialized` stays `false`,
`embedder` stays `null`), never rethrown. -/
def initializeEmb (pipelineResult : Except String Embedder)
    (s : EmbeddingServiceState) : EmbeddingServiceState :=
  if s.initialized then s
  else
    match pipelineResult with
    | Except.ok e => { s with embedder := some e, initialized := true }
    | Except.error _ => { s with initialized := false }

/-- Model of `embed(text)` (part_006 lines 49-83): lazy initialisation,
`null` when the embedder is unavailable, memoisation keyed by
`getCacheKey`. -/
def embed (pipelineResult : Except String Embedder) (s : EmbeddingServiceState)
    (text : String) : EmbeddingServiceState × Option (List ℚ) :=
  let s := if !s.initialized then initializeEmb pipelineResult s else s
  match s.embedder with
  | none => (s, none)
  | some f =>
    let cacheKey := getCacheKey text
    match cacheGet s.embeddingCache cacheKey with
    | some e => (s, some e)
    | none =>
      let embedding := f text
      ({ s with embeddingCache := cacheSet s.embeddingCache cacheKey embedding },
       some embedding)

structure EmbMetadata where
  sectionName : String
  title : String
  fullContent : String
  startLine : Nat
deriving Repr

structure EmbIndexEntry where
  text : String
  embedding : List ℚ
  metadata : EmbMetadata
deriving Repr

/-- Model of `buildEmbeddingIndex()` (part_005 lines 226-287): initialise
the service, derive searchable text (title + first 1000 characters) for
every item of every section, embed each and keep only the successful
ones. -/
def buildIdxStep (pipelineResult : Except String Embedder)
    (acc : EmbeddingServiceState × List EmbIndexEntry) (it : String × EmbMetadata) :
    EmbeddingServiceState × List EmbIndexEntry :=
  match embed pipelineResult acc.1 it.1 with
  | (s2, some e) => (s2, acc.2 ++ [EmbIndexEntry.mk it.1 e it.2])
  | (s2, none) => (s2, acc.2)

def buildEmbeddingIndex (pipelineResult : Except String Embedder)
    (s : EmbeddingServiceState) (sections : SectionsMap) :
    EmbeddingServiceState × List EmbIndexEntry :=
  let s := initializeEmb pipelineResult s
  let indexItems := sections.flatMap (fun p => p.2.map (fun item =>
    let title := extractTitle item.content
    let contentPreview := String.mk (item.content.data.take 1000)
    (title ++ "\n" ++ contentPreview,
     EmbMetadata.mk p.1 title item.content item.startLine)))
  indexItems.foldl (buildIdxStep pipelineResult) (s, [])

/-- The accumulation loop of `cosineSimilarity`
(`dotProduct`, `norm1`, `norm2`). -/
def simLoop : List (ℚ × ℚ) → ℚ × ℚ × ℚ → ℚ × ℚ × ℚ
  | [], acc => acc
  | p :: rest, acc =>
    simLoop rest (acc.1 + p.1 * p.2, acc.2.1 + p.1 * p.1, acc.2.2 + p.2 * p.2)

/-- Model of `cosineSimilarity(embedding1, embedding2)` (part_006 lines
113-134).  `Math.sqrt` is the parameter `sqrtQ` (exact at the arguments
the claims evaluate it on, in particular `sqrtQ 0 = 0`); a dimension
mismatch raises. -/
def cosineSimilarity (sqrtQ : ℚ → ℚ) (embedding1 embedding2 : List ℚ) :
    Except String ℚ :=
  if embedding1.length ≠ embedding2.length then
    Except.error "Embeddings must have the same length"
  else
    let acc := simLoop (embedding1.zip embedding2) (0, 0, 0)
    let magnitude := sqrtQ acc.2.1 * sqrtQ acc.2.2
    if magnitude = 0 then Except.ok 0
    else Except.ok (acc.1 / magnitude)

/-- Model of `semanticSearch(query, category, limit)` (part_005 lines
326-385).  `hasService` is `this.embeddingService !== null` (i.e. the
`useEmbeddings` option); the `excerpt`, `url`, `apiLink` and
`deprecationInfo` fields are omitted as for the keyword ranker. -/
def semanticSearch (sqrtQ : ℚ → ℚ) (pipelineResult : Except String Embedder)
    (s : EmbeddingServiceState) (embeddingIndex : List EmbIndexEntry)
    (hasService : Bool) (query category : String) (limit : Nat) :
    Except String (List SResult) := do
  if !hasService || embeddingIndex.isEmpty then
    return []
  let (_, qe) := embed pipelineResult s query
  match qe with
  | none => return []
  | some queryEmbedding =>
    let filteredIndex := embeddingIndex.filter (fun item =>
      if category == "all" then true
      else if category == "api" then item.metadata.sectionName == "api-docs"
      else if category == "community" then
        item.metadata.sectionName == "community-bloggers"
      else if category == "guides" then
        !(item.metadata.sectionName == "api-docs"
          || item.metadata.sectionName == "community-bloggers")
      else false)
    let results ← filteredIndex.foldlM (fun (rs : List SResult) item => do
      let similarity ← cosineSimilarity sqrtQ queryEmbedding item.embedding
      let semanticScore := similarity * 100
      if semanticScore > 10 then
        return rs ++ [{ title := item.metadata.title
                      , category := categorizeSectionName item.metadata.sectionName
                      , score := semanticScore
                      , semanticScore := some semanticScore
                      , searchType := "semantic" }]
      else
        return rs) []
    return (sortDescBy (fun r => (r.semanticScore.getD 0)) results).take limit

/-- Model of `search(query, category, limit)` (part_005 lines 296-316):
keyword search with double headroom, hybrid merge when the embedding index
is populated, keyword-only otherwise, and keyword-only fallback when the
semantic pass throws. -/
def search (sqrtQ : ℚ → ℚ) (pipelineResult : Except String Embedder)
    (s : EmbeddingServiceState) (useEmbeddings : Bool)
    (embeddingIndex : List EmbIndexEntry) (sections : SectionsMap)
    (query category : String) (limit : Nat) : List SResult :=
  let keywordResults := keywordSearch sections query category (limit * 2)
  if useEmbeddings && decide (embeddingIndex.length > 0) then
    match semanticSearch sqrtQ pipelineResult s embeddingIndex useEmbeddings
        query category (limit * 2) with
    | Except.ok semanticResults =>
      (mergeSearchResults keywordResults semanticResults).take limit
    | Except.error _ => keywordResults.take limit
  else keywordResults.take limit

/-! ### Flush trace of the parser (proof scaffolding for claims C4/C5)

`parseFlushes` re-states which `(sectionName, item)` pairs the parsing loop
pushes, mirroring the loop's branch conditions; `applyPairs` replays them
onto a map.  These are characterisations used in proofs, not part of the
embedding itself. -/

def parseFlushes (cur : Option Nat) (cont : List Chars) (name : String) (i : Nat) :
    List Chars → List (String × ParsedItem)
  | [] => []
  | l :: rest =>
    if isSectionHeaderLine l then
      (if cur.isSome && !cont.isEmpty then [(name, flushedItem cur cont)] else [])
        ++ parseFlushes (some i) [l] (String.mk (trimChars (l.drop 2))) (i + 1) rest
    else if isSeparatorLine l && decide (cont.length > 1) && cur.isSome then
      (if !cont.isEmpty then [(name, flushedItem cur cont)] else [])
        ++ parseFlushes (some (i + 1)) [] name (i + 1) rest
    else if cur.isSome then
      parseFlushes cur (cont ++ [l]) name (i + 1) rest
    else parseFlushes cur cont name (i + 1) rest

def applyPairs (m : SectionsMap) (ps : List (String × ParsedItem)) : SectionsMap :=
  ps.foldl (fun a p => addToMap a p.1 p.2) m

def pairsLookup (ps : List (String × ParsedItem)) (k : String) : List ParsedItem :=
  (ps.filter (fun p => p.1 == k)).map (fun p => p.2)

end EmberMcp

/-! # Theorems -/

namespace EmberMcp

theorem mapLookup_addToMap (m : SectionsMap) (n : String) (it : ParsedItem) (k : String) :
    mapLookup (addToMap m n it) k = mapLookup m k ++ (if k = n then [it] else []) := by
  induction m with
  | nil =>
    simp only [addToMap, mapLookup, beq_iff_eq, List.nil_append]
    by_cases h : n = k
    · rw [if_pos h, if_pos h.symm]
    · rw [if_neg h, if_neg (Ne.symm h)]
  | cons p rest ih =>
    obtain ⟨k2, v⟩ := p
    simp only [addToMap, beq_iff_eq]
    by_cases h2 : k2 = n
    · rw [if_pos h2]
      simp only [mapLookup, beq_iff_eq]
      by_cases hk : k2 = k
      · rw [if_pos hk, if_pos hk, if_pos (hk.symm.trans h2)]
      · rw [if_neg hk, if_neg hk]
        have hkn : ¬ k = n := fun hh => hk (h2 ▸ hh.symm)
        rw [if_neg hkn, List.append_nil]
    · rw [if_neg h2]
      simp only [mapLookup, beq_iff_eq]
      by_cases hk : k2 = k
      · rw [if_pos hk, if_pos hk]
        have hkn : ¬ k = n := fun hh => h2 (hk.trans hh)
        rw [if_neg hkn, List.append_nil]
      · rw [if_neg hk, if_neg hk, ih]

theorem applyPairs_lookup (ps : List (String × ParsedItem)) (m : SectionsMap) (k : String) :
    mapLookup (applyPairs m ps) k = mapLookup m k ++ pairsLookup ps k := by
  induction ps generalizing m with
  | nil => simp [applyPairs, pairsLookup]
  | cons p ps ih =>
    obtain ⟨n, it⟩ := p
    have h1 : applyPairs m ((n, it) :: ps) = applyPairs (addToMap m n it) ps := by
      simp [applyPairs]
    rw [h1, ih, mapLookup_addToMap]
    simp only [pairsLookup, List.filter_cons, beq_iff_eq]
    by_cases h : n = k
    · rw [if_pos h.symm]
      simp only [decide_eq_true_eq, if_pos h, List.map_cons, List.append_assoc,
        List.singleton_append]
    · rw [if_neg (Ne.symm h)]
      simp only [decide_eq_true_eq, if_neg h, List.append_nil]

theorem parseStep_char (m : SectionsMap) (cur : Option Nat) (cont : List Chars)
    (name : String) (i : Nat) (l : Chars) :
    parseStep ⟨m, cur, cont, name⟩ i l =
      if isSectionHeaderLine l then
        ⟨(if cur.isSome && !cont.isEmpty then addToMap m name (flushedItem cur cont) else m),
         some i, [l], String.mk (trimChars (l.drop 2))⟩
      else if isSeparatorLine l && decide (cont.length > 1) && cur.isSome then
        ⟨(if !cont.isEmpty then addToMap m name (flushedItem cur cont) else m),
         some (i + 1), [], name⟩
      else if cur.isSome then ⟨m, cur, cont ++ [l], name⟩
      else ⟨m, cur, cont, name⟩ := by
  simp only [parseStep, flushItem, apply_ite ParseState.sections,
    apply_ite ParseState.sectionName, ite_self]

theorem parseFlushes_char (cur : Option Nat) (cont : List Chars) (name : String)
    (i : Nat) (l : Chars) (rest : List Chars) :
    parseFlushes cur cont name i (l :: rest) =
      if isSectionHeaderLine l then
        (if cur.isSome && !cont.isEmpty then [(name, flushedItem cur cont)] else [])
          ++ parseFlushes (some i) [l] (String.mk (trimChars (l.drop 2))) (i + 1) rest
      else if isSeparatorLine l && decide (cont.length > 1) && cur.isSome then
        (if !cont.isEmpty then [(name, flushedItem cur cont)] else [])
          ++ parseFlushes (some (i + 1)) [] name (i + 1) rest
      else if cur.isSome then parseFlushes cur (cont ++ [l]) name (i + 1) rest
      else parseFlushes cur cont name (i + 1) rest := by
  rfl

theorem parseLinesFrom_locals (lines : List Chars) :
    ∀ (i : Nat) (cur : Option Nat) (cont : List Chars) (name : String)
      (m1 m2 : SectionsMap),
    (parseLinesFrom ⟨m1, cur, cont, name⟩ i lines).currentSection
      = (parseLinesFrom ⟨m2, cur, cont, name⟩ i lines).currentSection
  ∧ (parseLinesFrom ⟨m1, cur, cont, name⟩ i lines).currentContent
      = (parseLinesFrom ⟨m2, cur, cont, name⟩ i lines).currentContent
  ∧ (parseLinesFrom ⟨m1, cur, cont, name⟩ i lines).sectionName
      = (parseLinesFrom ⟨m2, cur, cont, name⟩ i lines).sectionName := by
  induction lines with
  | nil => intro i cur cont name m1 m2; exact ⟨rfl, rfl, rfl⟩
  | cons l rest ih =>
    intro i cur cont name m1 m2
    simp only [parseLinesFrom, parseStep_char]
    cases h1 : isSectionHeaderLine l with
    | true =>
      simp only [if_true]
      exact ih (i + 1) (some i) [l] (String.mk (trimChars (l.drop 2))) _ _
    | false =>
      simp only [Bool.false_eq_true, if_false]
      cases h2 : (isSeparatorLine l && decide (cont.length > 1) && cur.isSome) with
      | true =>
        simp only [if_true]
        exact ih (i + 1) (some (i + 1)) [] name _ _
      | false =>
        simp only [Bool.false_eq_true, if_false]
        cases h3 : cur.isSome with
        | true =>
          simp only [if_true]
          exact ih (i + 1) cur (cont ++ [l]) name _ _
        | false =>
          simp only [Bool.false_eq_true, if_false]
          exact ih (i + 1) cur cont name _ _

theorem parseLinesFrom_trace (lines : List Chars) :
    ∀ (i : Nat) (cur : Option Nat) (cont : List Chars) (name : String)
      (m : SectionsMap),
    (parseLinesFrom ⟨m, cur, cont, name⟩ i lines).sections
      = applyPairs m (parseFlushes cur cont name i lines) := by
  induction lines with
  | nil => intro i cur cont name m; rfl
  | cons l rest ih =>
    intro i cur cont name m
    simp only [parseLinesFrom, parseStep_char, parseFlushes_char]
    cases h1 : isSectionHeaderLine l with
    | true =>
      simp only [if_true]
      cases hf : (cur.isSome && !cont.isEmpty) with
      | true =>
        simp only [if_true, ih, applyPairs, List.foldl_cons, List.singleton_append]
      | false =>
        simp only [Bool.false_eq_true, if_false, ih, List.nil_append]
    | false =>
      simp only [Bool.false_eq_true, if_false]
      cases h2 : (isSeparatorLine l && decide (cont.length > 1) && cur.isSome) with
      | true =>
        simp only [if_true]
        cases h3 : (!cont.isEmpty) with
        | true =>
          simp only [if_true, ih, applyPairs, List.foldl_cons, List.singleton_append]
        | false =>
          simp only [Bool.false_eq_true, if_false, ih, List.nil_append]
      | false =>
        simp only [Bool.false_eq_true, if_false]
        cases h3 : cur.isSome with
        | true =>
          simp only [if_true, ih]
        | false =>
          simp only [Bool.false_eq_true, if_false, ih]

theorem parseDocumentation_lookup (m : SectionsMap) (t : String) (k : String) :
    mapLookup (parseDocumentation m t) k
      = mapLookup m k ++ mapLookup (parseDocumentation [] t) k := by
  simp only [parseDocumentation]
  obtain ⟨hcur, hcont, hname⟩ :=
    parseLinesFrom_locals (splitLines t.data) 0 none [] "" m []
  have hm := parseLinesFrom_trace (splitLines t.data) 0 none [] "" m
  have h0 := parseLinesFrom_trace (splitLines t.data) 0 none [] "" []
  set stM := parseLinesFrom ⟨m, none, [], ""⟩ 0 (splitLines t.data) with hstM
  set st0 := parseLinesFrom ⟨[], none, [], ""⟩ 0 (splitLines t.data) with hst0
  by_cases hc : (stM.currentSection.isSome && !stM.currentContent.isEmpty) = true
  · have hc0 : (st0.currentSection.isSome && !st0.currentContent.isEmpty) = true := by
      rw [← hcur, ← hcont]; exact hc
    rw [if_pos hc, if_pos hc0]
    simp only [flushItem, hm, h0]
    rw [hcur, hcont, hname]
    rw [mapLookup_addToMap, mapLookup_addToMap, applyPairs_lookup, applyPairs_lookup]
    simp [List.append_assoc, mapLookup]
  · have hc0 : ¬ (st0.currentSection.isSome && !st0.currentContent.isEmpty) = true := by
      rw [← hcur, ← hcont]; exact hc
    rw [if_neg hc, if_neg hc0, hm, h0, applyPairs_lookup, applyPairs_lookup]
    simp [mapLookup]

theorem sep_not_header (l : Chars) (hsep : isSeparatorLine l = true) :
    isSectionHeaderLine l = false := by
  cases l with
  | nil => simp [isSeparatorLine] at hsep
  | cons c t =>
    have hc : c = '-' := by
      simp only [isSeparatorLine, Bool.and_eq_true, List.all_cons] at hsep
      exact eq_of_beq hsep.2.1
    subst hc
    rfl

/-! ### Claim C4 -/

/-- Claim C4, counterexample: the corpus `"# sec\na\n---\nb\n---\nc"` has a
three-hyphen line (line 4) that is met while the section is open and one
line of content (`"b"`) has accumulated — the claim says it must flush and
be discarded — yet the parser keeps it: the output has only two items and
the second one, `"b\n---\nc"`, contains the separator line.  (The code only
flushes when the accumulation holds more than one line.) -/
theorem parse_separator_claim_cex :
    parseDocumentation [] "# sec\na\n---\nb\n---\nc"
      = [("sec", [⟨"# sec\na", 0⟩, ⟨"b\n---\nc", 3⟩])]
  ∧ (splitLines ("b\n---\nc".data)).any isSeparatorLine = true :=
  ⟨by decide, by decide⟩

/-- Claim C4, amended: a line of three-or-more hyphens flushes the
accumulated buffer as one item and starts a new empty accumulation — the
hyphen line itself entering neither the flushed item nor the new buffer —
provided the section is open and the buffer holds *more than one line*
(the first buffer of a section starts with the header line, so one content
line suffices there; after a flush the buffer is empty and needs two).
With fewer lines the hyphen line is kept as ordinary content.  The
end-to-end conjunct shows a separator meeting the condition being
discarded. -/
theorem parse_separator_flush_amended (st : ParseState) (i : Nat) (line : Chars)
    (hsep : isSeparatorLine line = true) (hopen : st.currentSection.isSome = true)
    (hlen : 1 < st.currentContent.length) :
    parseStep st i line
      = ⟨addToMap st.sections st.sectionName
            (flushedItem st.currentSection st.currentContent),
         some (i + 1), [], st.sectionName⟩
  ∧ parseDocumentation [] "# sec\na\nb\n---\nc\nd"
      = [("sec", [⟨"# sec\na\nb", 0⟩, ⟨"c\nd", 4⟩])] := by
  constructor
  · obtain ⟨m, cur, cont, name⟩ := st
    simp only at hopen hlen
    have hh : isSectionHeaderLine line = false := sep_not_header line hsep
    have hd : decide (cont.length > 1) = true := decide_eq_true hlen
    have hne : cont.isEmpty = false := by
      cases cont with
      | nil => simp at hlen
      | cons a b => rfl
    rw [parseStep_char]
    simp only [hh, Bool.false_eq_true, if_false, hsep, hd, hopen, Bool.and_self,
      if_true, hne, Bool.not_false]
  · decide

/-- Claim C4 witness: the amended step equation applied at a concrete open
state with a two-line buffer. -/
theorem parse_separator_flush_amended_wit :
    parseStep ⟨[], some 0, ["# sec".data, "a".data], "sec"⟩ 2 ("---".data)
      = ⟨addToMap [] "sec" (flushedItem (some 0) ["# sec".data, "a".data]),
         some 3, [], "sec"⟩ :=
  (parse_separator_flush_amended ⟨[], some 0, ["# sec".data, "a".data], "sec"⟩ 2
    ("---".data) (by decide) (by decide) (by decide)).1

/-! ### Claim C5 -/

/-- Claim C5, counterexample: `parseDocumentation` is not idempotent on the
service state — parsing the same text twice yields a section map with every
item duplicated, not a map structurally equal to a single parse. -/
theorem parse_idempotent_cex :
    parseDocumentation (parseDocumentation [] "# sec\nhello") "# sec\nhello"
      ≠ parseDocumentation [] "# sec\nhello" := by
  decide

/-- Claim C5, amended: parsing is deterministic but stateful — a parse
appends its flushed items to the section lists already held by the
instance; in particular invoking the parse twice on the same text yields,
for every section name, the single-parse item list appended to itself
(instead of a map structurally equal to the single parse). -/
theorem parse_twice_appends (t : String) (m : SectionsMap) (k : String) :
    mapLookup (parseDocumentation m t) k
      = mapLookup m k ++ mapLookup (parseDocumentation [] t) k
  ∧ mapLookup (parseDocumentation (parseDocumentation [] t) t) k
      = mapLookup (parseDocumentation [] t) k ++ mapLookup (parseDocumentation [] t) k :=
  ⟨parseDocumentation_lookup m t k, parseDocumentation_lookup (parseDocumentation [] t) t k⟩

/-! ### Claims C1 and C2 -/

theorem processTerm_parts (content titleLower : Chars) (acc : ScoreAcc) (t : Chars) :
    (processTerm content titleLower acc t).score
        = acc.score + termSlotScore content titleLower t
  ∧ (processTerm content titleLower acc t).matchedTerms
        = acc.matchedTerms ++ (if countOccur content t > 0 then [t] else [])
  ∧ (processTerm content titleLower acc t).termPositions
        = acc.termPositions ++ slotPositions content [t] := by
  by_cases hc : countOccur content t > 0
  · by_cases ht : containsSub titleLower t = true
    · cases hfi : firstIdx content t with
      | some p =>
        refine ⟨?_, ?_, ?_⟩ <;>
          simp [processTerm, termSlotScore, slotPositions, hc, ht, hfi] <;> omega
      | none =>
        refine ⟨?_, ?_, ?_⟩ <;>
          simp [processTerm, termSlotScore, slotPositions, hc, ht, hfi] <;> omega
    · cases hfi : firstIdx content t with
      | some p =>
        refine ⟨?_, ?_, ?_⟩ <;>
          simp [processTerm, termSlotScore, slotPositions, hc, ht, hfi] <;> omega
      | none =>
        refine ⟨?_, ?_, ?_⟩ <;>
          simp [processTerm, termSlotScore, slotPositions, hc, ht, hfi] <;> omega
  · refine ⟨?_, ?_, ?_⟩ <;> simp [processTerm, termSlotScore, slotPositions, hc]

theorem processTerms_parts (content titleLower : Chars) (ts : List Chars) :
    ∀ (acc : ScoreAcc),
    (processTerms content titleLower acc ts).score
        = acc.score + (ts.map (termSlotScore content titleLower)).sum
  ∧ (processTerms content titleLower acc ts).matchedTerms.length
        = acc.matchedTerms.length + matchedSlots content ts
  ∧ (processTerms content titleLower acc ts).termPositions
        = acc.termPositions ++ slotPositions content ts := by
  induction ts with
  | nil => intro acc; simp [processTerms, matchedSlots, slotPositions]
  | cons t ts ih =>
    intro acc
    simp only [processTerms]
    obtain ⟨ihs, ihm, ihp⟩ := ih (processTerm content titleLower acc t)
    obtain ⟨hps, hpm, hpp⟩ := processTerm_parts content titleLower acc t
    refine ⟨?_, ?_, ?_⟩
    · rw [ihs, hps]
      simp [Nat.add_assoc]
    · rw [ihm, hpm]
      by_cases hc : countOccur content t > 0 <;>
        simp [matchedSlots, List.filter_cons, hc] <;> omega
    · rw [ihp, hpp]
      have : slotPositions content (t :: ts)
          = slotPositions content [t] ++ slotPositions content ts := by
        simp [slotPositions, List.filterMap_cons]
        rcases h : (if countOccur content t > 0 then
            Option.map (fun p => (t, p)) (firstIdx content t) else none) with _ | v <;> simp
      rw [this, List.append_assoc]

theorem finalizeScore_eq (ts : List Chars) (acc : ScoreAcc) :
    finalizeScore ts acc
      = acc.score + (if acc.matchedTerms.length = ts.length
          then SEARCH_CONFIG.ALL_TERMS_BONUS + proxBonus acc.termPositions else 0) := by
  unfold finalizeScore proxBonus
  by_cases h : acc.matchedTerms.length = ts.length
  · rw [if_pos h]
    have hb : (acc.matchedTerms.length == ts.length) = true := beq_iff_eq.mpr h
    rw [if_pos hb]
    by_cases hl : decide (acc.termPositions.length > 1) = true
    · rw [if_pos hl, if_pos hl]
      by_cases hsp : ((sortPosAsc acc.termPositions).getLast?.map (fun p => p.2)).getD 0
          - (((sortPosAsc acc.termPositions).head?.map (fun p => p.2)).getD 0)
          < SEARCH_CONFIG.PROXIMITY_THRESHOLD
      · rw [if_pos hsp, if_pos hsp]
        omega
      · rw [if_neg hsp, if_neg hsp]
        omega
    · rw [if_neg hl, if_neg hl]
      omega
  · rw [if_neg h]
    have hb : ¬ (acc.matchedTerms.length == ts.length) = true := by
      simpa [beq_iff_eq] using h
    rw [if_neg hb]
    omega

/-- Claim C1, counterexample: for the query `"tracked properties"` against
an item whose content contains the phrase verbatim, the ranker assigns
score 54 (50 phrase + 2 + 2, no all-terms or proximity bonus — the phrase
match is pushed onto `matchedTerms`, so its length exceeds the term count),
while the specified additive formula gives 83 (adds the flat 20 and a
proximity bonus of 9). -/
theorem keyword_score_spec_cex :
    (keywordSearch [("guides-misc",
        [⟨"My Guide Document\ntracked properties are neat", 0⟩])]
        "tracked properties" "all" 10).map (fun r => r.score) = [(54 : ℚ)]
  ∧ specKeywordScore "tracked properties" "My Guide Document\ntracked properties are neat"
      (extractTitle "My Guide Document\ntracked properties are neat") = 83 :=
  ⟨by decide, by decide⟩

/-- Claim C1, amended: the ranker's score is the additive sum — the phrase
bonus, plus for each entry of the whitespace-split term list (duplicates
counted separately) the title bonus and twice the occurrence count when
the entry occurs, plus the flat all-terms bonus and the proximity bonus —
except that the all-terms condition compares the length of the matched
list, which also counts the verbatim-phrase entry, with the term count: so
when the full query phrase matches verbatim, the flat bonus and the
proximity bonus are *not* granted even though every term is present. -/
theorem keyword_score_formula (queryLower : Chars) (searchTerms : List Chars)
    (content titleLower : Chars) :
    finalizeScore searchTerms (scoreItemAcc queryLower searchTerms content titleLower)
      = (if containsSub content queryLower then SEARCH_CONFIG.EXACT_PHRASE_BONUS else 0)
        + (searchTerms.map (termSlotScore content titleLower)).sum
        + (if (if containsSub content queryLower then 1 else 0)
              + matchedSlots content searchTerms = searchTerms.length
           then SEARCH_CONFIG.ALL_TERMS_BONUS + proxBonus (slotPositions content searchTerms)
           else 0) := by
  rw [finalizeScore_eq]
  unfold scoreItemAcc
  by_cases hph : containsSub content queryLower = true
  · rw [if_pos hph]
    obtain ⟨hs, hm, hp⟩ := processTerms_parts content titleLower searchTerms
      ⟨SEARCH_CONFIG.EXACT_PHRASE_BONUS, [queryLower], []⟩
    simp only [hph, if_true] at hs hm hp ⊢
    rw [hs, hm, hp]
    simp only [List.length_cons, List.length_nil, List.nil_append, hph, if_pos rfl]
  · rw [if_neg hph]
    obtain ⟨hs, hm, hp⟩ := processTerms_parts content titleLower searchTerms ⟨0, [], []⟩
    simp only [hph, Bool.false_eq_true, if_false] at hs hm hp ⊢
    rw [hs, hm, hp]
    simp only [List.length_nil, List.nil_append]

/-- Claim C2, counterexample: for the query `"foo foo bar"` (a duplicated
term) against an item containing `foo` three times, the ranker includes the
item (score 12, `matchedTerms` length 2 counting the duplicate), although
the item matches only *one distinct* query term and its score is below the
single-term minimum 20 — the specification's gate excludes it. -/
theorem keyword_gate_spec_cex :
    ((keywordSearch [("guides-misc",
        [⟨"Tracked Properties Guide\nfoo x foo y foo", 0⟩])]
        "foo foo bar" "all" 10).map (fun r => (r.title, r.score)))
      = [("Tracked Properties Guide", (12 : ℚ))]
  ∧ specKeywordGate "foo foo bar" "Tracked Properties Guide\nfoo x foo y foo" = false :=
  ⟨by decide, by decide⟩

/-- Claim C2, amended: an item passes the keyword gate iff its score is at
least 10 and either its `matchedTerms` list — which counts the
verbatim-phrase entry and counts duplicated query terms once per entry, not
distinct terms — has length at least 2, or the score reaches the
single-term minimum 20; in particular an item whose matched list has at
most one entry and whose score is below 20 never reaches the result
list. -/
theorem keyword_gate_amended :
    (∀ (sname : String) (item : ParsedItem) (query : String),
      (keywordItemResult sname (lowerChars query.data) (splitWs (lowerChars query.data))
          item).isSome = true
        ↔ (SEARCH_CONFIG.MIN_SCORE ≤ itemScoreOf query item
            ∧ (2 ≤ itemMatchedLen query item
               ∨ SEARCH_CONFIG.MIN_SCORE_SINGLE_TERM ≤ itemScoreOf query item)))
  ∧ (∀ (sname : String) (item : ParsedItem) (query : String) (limit : Nat),
      itemMatchedLen query item ≤ 1 →
      itemScoreOf query item < SEARCH_CONFIG.MIN_SCORE_SINGLE_TERM →
      keywordSearch [(sname, [item])] query "all" limit = []) := by
  constructor
  · intro sname item query
    simp only [keywordItemResult, itemScoreOf, itemMatchedLen]
    split
    · rename_i hgate
      simp only [Option.isSome_some, true_iff]
      simp only [Bool.and_eq_true, Bool.or_eq_true, decide_eq_true_eq] at hgate
      exact hgate
    · rename_i hgate
      simp only [Option.isSome_none, Bool.false_eq_true, false_iff]
      intro hcontra
      exact hgate (by
        simp only [Bool.and_eq_true, Bool.or_eq_true, decide_eq_true_eq]
        exact hcontra)
  · intro sname item query limit hlen hscore
    have hnone : keywordItemResult sname (lowerChars query.data)
        (splitWs (lowerChars query.data)) item = none := by
      simp only [keywordItemResult]
      split
      · rename_i hgate
        simp only [Bool.and_eq_true, Bool.or_eq_true, decide_eq_true_eq] at hgate
        rcases hgate.2 with h2 | h2
        · exact absurd h2 (by simp only [itemMatchedLen] at hlen; omega)
        · exact absurd h2 (by simp only [itemScoreOf] at hscore; omega)
      · rfl
    simp [keywordSearch, keywordCandidates, sectionsToSearch, mapLookup, hnone, sortDescBy]

/-- Claim C2 witness: the amended exclusion applied to a concrete item
matching one entry (`foo`, twice in content, score 4 < 20). -/
theorem keyword_gate_amended_wit :
    keywordSearch [("guides-misc", [⟨"Unrelated Heading Line\nfoo bar foo", 0⟩])]
      "foo baz qux" "all" 10 = [] :=
  keyword_gate_amended.2 "guides-misc" ⟨"Unrelated Heading Line\nfoo bar foo", 0⟩
    "foo baz qux" 10 (by decide) (by decide)

/-! ### Sortedness of the stable descending sort -/

theorem insDesc_mem {α : Type} (key : α → ℚ) (x : α) (l : List α) (a : α) :
    a ∈ insDesc key x l ↔ a = x ∨ a ∈ l := by
  induction l with
  | nil => simp [insDesc]
  | cons y ys ih =>
    simp only [insDesc]
    by_cases h : key x < key y
    · rw [if_pos h]
      simp only [List.mem_cons, ih]
      tauto
    · rw [if_neg h]
      simp only [List.mem_cons]

theorem insDesc_sorted {α : Type} (key : α → ℚ) (x : α) (l : List α)
    (h : l.Pairwise (fun a b => key b ≤ key a)) :
    (insDesc key x l).Pairwise (fun a b => key b ≤ key a) := by
  induction l with
  | nil => simp [insDesc]
  | cons y ys ih =>
    simp only [insDesc]
    obtain ⟨hy, hys⟩ := List.pairwise_cons.mp h
    by_cases hxy : key x < key y
    · rw [if_pos hxy]
      refine List.pairwise_cons.mpr ⟨?_, ih hys⟩
      intro z hz
      rcases (insDesc_mem key x ys z).mp hz with rfl | hzys
      · exact le_of_lt hxy
      · exact hy z hzys
    · rw [if_neg hxy]
      refine List.pairwise_cons.mpr ⟨?_, h⟩
      intro z hz
      rcases List.mem_cons.mp hz with rfl | hzys
      · exact not_lt.mp hxy
      · exact le_trans (hy z hzys) (not_lt.mp hxy)

theorem sortDescBy_sorted {α : Type} (key : α → ℚ) (l : List α) :
    (sortDescBy key l).Pairwise (fun a b => key b ≤ key a) := by
  induction l with
  | nil => simp [sortDescBy]
  | cons x xs ih => exact insDesc_sorted key x _ ih

theorem sortDescBy_mem {α : Type} (key : α → ℚ) (l : List α) (a : α) :
    a ∈ sortDescBy key l ↔ a ∈ l := by
  induction l with
  | nil => simp [sortDescBy]
  | cons x xs ih =>
    show a ∈ insDesc key x (sortDescBy key xs) ↔ _
    rw [insDesc_mem, ih]
    simp

/-! ### Claim C3 -/

/-- Claim C3: the hybrid merger assigns each item 0.6 × its keyword score
plus 0.4 × its semantic score (each contribution 0 when absent), tags items
found by both rankers as `hybrid`, and returns the merged list ordered by
descending combined score.  Conjuncts: (i) the output is sorted descending
by the combined score and every output record's `score` *is* its combined
score; (ii) a keyword-only result with keyword score `k` comes out with
combined score `k × 0.6`; (iii) a semantic-only result with semantic score
`s` comes out with `s × 0.4`; (iv) one item in both lists (same title and
url) comes out with `k × 0.6 + s × 0.4` tagged `hybrid`; (v) the
specification's three numeric instances 50 ↦ 30, 80 ↦ 32 and
(40, 60) ↦ 48-hybrid. -/
theorem merge_hybrid_scoring :
    (∀ (kw sem : List SResult),
       (mergeSearchResults kw sem).Pairwise (fun a b => b.hybridScore ≤ a.hybridScore)
     ∧ ∀ r ∈ mergeSearchResults kw sem, r.score = r.hybridScore)
  ∧ (∀ (r : SResult) (k : ℚ), r.keywordScore = some k → k ≠ 0 →
       (mergeSearchResults [r] []).map (fun x => (x.score, x.hasKeywordMatch))
         = [(k * (0.6 : ℚ), true)])
  ∧ (∀ (r : SResult) (s : ℚ), r.semanticScore = some s → s ≠ 0 →
       (mergeSearchResults [] [r]).map (fun x => (x.score, x.hasSemanticMatch))
         = [(s * (0.4 : ℚ), true)])
  ∧ (∀ (r1 r2 : SResult) (k s : ℚ), r1.title = r2.title → r1.url = r2.url →
       r1.keywordScore = some k → k ≠ 0 → r2.semanticScore = some s → s ≠ 0 →
       (mergeSearchResults [r1] [r2]).map (fun x => (x.score, x.searchType))
         = [(k * (0.6 : ℚ) + s * (0.4 : ℚ), "hybrid")])
  ∧ (mergeSearchResults
       [{ title := "Test 1", url := "/test1", score := 50, keywordScore := some 50,
          searchType := "keyword" }] []).map (fun x => x.score) = [(30 : ℚ)]
  ∧ (mergeSearchResults []
       [{ title := "Test 1", url := "/test1", score := 80, semanticScore := some 80,
          searchType := "semantic" }]).map (fun x => x.score) = [(32 : ℚ)]
  ∧ (mergeSearchResults
       [{ title := "Test 2", url := "/test2", score := 40, keywordScore := some 40,
          searchType := "keyword" }]
       [{ title := "Test 2", url := "/test2", score := 60, semanticScore := some 60,
          searchType := "semantic" }]).map (fun x => (x.score, x.searchType))
       = [((48 : ℚ), "hybrid")] := by
  refine ⟨?_, ?_, ?_, ?_, ?_, ?_, ?_⟩
  · intro kw sem
    constructor
    · exact sortDescBy_sorted _ _
    · intro r hr
      simp only [mergeSearchResults] at hr
      rw [sortDescBy_mem] at hr
      simp only [List.mem_map] at hr
      obtain ⟨_, ⟨p, _, rfl⟩, rfl⟩ := hr
      rfl
  · intro r k hks hk0
    simp [mergeSearchResults, mapSetR, mapGetR, mergeKey, jsOrQ, hks, hk0,
      sortDescBy, insDesc]
  · intro r s hss hs0
    simp [mergeSearchResults, mapSetR, mapGetR, mergeKey, jsOrQ, hss, hs0,
      sortDescBy, insDesc]
  · intro r1 r2 k s ht hu hks hk0 hss hs0
    simp [mergeSearchResults, mapSetR, mapGetR, mergeKey, jsOrQ, hks, hk0, hss, hs0,
      ht, hu, sortDescBy, insDesc]
  · norm_num [mergeSearchResults, mapSetR, mapGetR, mergeKey, jsOrQ, sortDescBy, insDesc]
  · norm_num [mergeSearchResults, mapSetR, mapGetR, mergeKey, jsOrQ, sortDescBy, insDesc]
  · norm_num [mergeSearchResults, mapSetR, mapGetR, mergeKey, jsOrQ, sortDescBy, insDesc]

/-- Claim C3 witness: the three general conjuncts applied at the
specification's own concrete records. -/
theorem merge_hybrid_scoring_wit :
    (mergeSearchResults
        [{ title := "Test 1", url := "/test1", score := 50, keywordScore := some 50,
           searchType := "keyword" }] []).map (fun x => (x.score, x.hasKeywordMatch))
      = [((50 : ℚ) * (0.6 : ℚ), true)]
  ∧ (mergeSearchResults []
        [{ title := "Test 1", url := "/test1", score := 80, semanticScore := some 80,
           searchType := "semantic" }]).map (fun x => (x.score, x.hasSemanticMatch))
      = [((80 : ℚ) * (0.4 : ℚ), true)]
  ∧ (mergeSearchResults
        [{ title := "Test 2", url := "/test2", score := 40, keywordScore := some 40,
           searchType := "keyword" }]
        [{ title := "Test 2", url := "/test2", score := 60, semanticScore := some 60,
           searchType := "semantic" }]).map (fun x => (x.score, x.searchType))
      = [((40 : ℚ) * (0.6 : ℚ) + (60 : ℚ) * (0.4 : ℚ), "hybrid")] :=
  ⟨merge_hybrid_scoring.2.1 _ 50 rfl (by norm_num),
   merge_hybrid_scoring.2.2.1 _ 80 rfl (by norm_num),
   merge_hybrid_scoring.2.2.2.1 _ _ 40 60 rfl rfl rfl (by norm_num) rfl (by norm_num)⟩

/-! ### Claim C6 -/

theorem apiMapGet_set_self (m : List (String × ApiEntry)) (k : String) (v : ApiEntry) :
    apiMapGet (apiMapSet m k v) k = some v := by
  induction m with
  | nil => simp [apiMapSet, apiMapGet]
  | cons p rest ih =>
    obtain ⟨k2, v2⟩ := p
    by_cases h : k2 = k
    · simp [apiMapSet, apiMapGet, h]
    · have hb : (k2 == k) = false := beq_eq_false_iff_ne.mpr h
      simp [apiMapSet, apiMapGet, hb, ih]

theorem apiMapGet_set_same (m : List (String × ApiEntry)) (k k2 : String) (v : ApiEntry)
    (h : apiMapGet m k = some v) : apiMapGet (apiMapSet m k2 v) k = some v := by
  by_cases hk : k2 = k
  · subst hk
    exact apiMapGet_set_self m k2 v
  · induction m with
    | nil => simp [apiMapGet] at h
    | cons p rest ih =>
      obtain ⟨a, b⟩ := p
      by_cases ha2 : a = k2
      · subst ha2
        have hak : (a == k) = false := beq_eq_false_iff_ne.mpr hk
        simp only [apiMapGet, hak, Bool.false_eq_true, if_false] at h
        simp [apiMapSet, apiMapGet, hak, h]
      · have hb2 : (a == k2) = false := beq_eq_false_iff_ne.mpr ha2
        by_cases hak : a = k
        · have hbk : (a == k) = true := beq_iff_eq.mpr hak
          simp only [apiMapGet, hbk, if_true] at h
          simp [apiMapSet, apiMapGet, hb2, hbk, h]
        · have hbk : (a == k) = false := beq_eq_false_iff_ne.mpr hak
          simp only [apiMapGet, hbk, Bool.false_eq_true, if_false] at h
          simp [apiMapSet, apiMapGet, hb2, hbk, ih h]

/-- Claim C6: API indexing never aborts — an item whose record fails to
decode (no brace pair, parse failure, missing `data`/`attributes`, no
truthy name) leaves the index untouched; a decoded entry is registered
under its lower-cased name, under its lower-cased module path when that is
a (truthy) string, and under the lower-cased last `.`-segment of its name,
all keys mapping to the identical entry value; concretely, one well-formed
plus one malformed record yield exactly the index of the well-formed one
alone, whose single entry is retrievable case-insensitively by full name,
by module path, and by final segment. -/
theorem api_index_contract :
    (∀ (idx : List (String × ApiEntry)) (content : String),
        decodeApiRecord content = none → indexApiItem idx content = idx)
  ∧ (∀ (idx : List (String × ApiEntry)) (content : String) (data attrs : Json)
        (name : String), decodeApiRecord content = some (data, attrs, name) →
        apiLookup (indexApiItem idx content) name = some (mkApiEntry data attrs name))
  ∧ (∀ (idx : List (String × ApiEntry)) (content : String) (data attrs : Json)
        (name ms : String), decodeApiRecord content = some (data, attrs, name) →
        jGet attrs "module" = some (Json.jstr ms) → ms ≠ "" →
        apiLookup (indexApiItem idx content) ms = some (mkApiEntry data attrs name))
  ∧ (∀ (idx : List (String × ApiEntry)) (content : String) (data attrs : Json)
        (name : String), decodeApiRecord content = some (data, attrs, name) →
        moduleSafe attrs = true → containsSub name.data ['.'] = true →
        apiLookup (indexApiItem idx content)
          (String.mk (((splitOnChar '.' name.data).getLast?).getD []))
          = some (mkApiEntry data attrs name))
  ∧ indexApiDocs [("api-docs", [⟨goodApiDoc, 0⟩, ⟨badApiDoc, 10⟩])] []
      = indexApiDocs [("api-docs", [⟨goodApiDoc, 0⟩])] []
  ∧ ((apiLookup (indexApiDocs [("api-docs", [⟨goodApiDoc, 0⟩, ⟨badApiDoc, 10⟩])] [])
        "Ember.Component").map (fun e => e.name)) = some "Ember.Component"
  ∧ ((apiLookup (indexApiDocs [("api-docs", [⟨goodApiDoc, 0⟩, ⟨badApiDoc, 10⟩])] [])
        "COMPONENT").map (fun e => e.name)) = some "Ember.Component"
  ∧ ((indexApiDocs [("api-docs", [⟨goodApiDoc, 0⟩, ⟨badApiDoc, 10⟩])] []).all
        (fun p => p.2.name == "Ember.Component")) = true := by
  refine ⟨?_, ?_, ?_, ?_, by rfl, by rfl, by rfl, by rfl⟩
  · intro idx content h
    simp [indexApiItem, h]
  · intro idx content data attrs name h
    simp only [indexApiItem, h, apiLookup]
    cases hm : jGet attrs "module" with
    | none =>
      by_cases hd : containsSub name.data ['.'] = true
      · simp only [hd, if_true]
        exact apiMapGet_set_same _ _ _ _ (apiMapGet_set_self _ _ _)
      · simp only [hd, Bool.false_eq_true, if_false]
        exact apiMapGet_set_self _ _ _
    | some mv =>
      by_cases ht : jTruthy mv = true
      · cases mv with
        | jstr ms =>
          simp only [ht, if_true]
          by_cases hd : containsSub name.data ['.'] = true
          · simp only [hd, if_true]
            exact apiMapGet_set_same _ _ _ _
              (apiMapGet_set_same _ _ _ _ (apiMapGet_set_self _ _ _))
          · simp only [hd, Bool.false_eq_true, if_false]
            exact apiMapGet_set_same _ _ _ _ (apiMapGet_set_self _ _ _)
        | jnull => simp [jTruthy] at ht
        | jbool b =>
          simp only [ht, if_true]
          exact apiMapGet_set_self _ _ _
        | jnum n =>
          simp only [ht, if_true]
          exact apiMapGet_set_self _ _ _
        | jarr xs =>
          simp only [ht, if_true]
          exact apiMapGet_set_self _ _ _
        | jobj fs =>
          simp only [ht, if_true]
          exact apiMapGet_set_self _ _ _
      · simp only [ht, Bool.false_eq_true, if_false]
        by_cases hd : containsSub name.data ['.'] = true
        · simp only [hd, if_true]
          exact apiMapGet_set_same _ _ _ _ (apiMapGet_set_self _ _ _)
        · simp only [hd, Bool.false_eq_true, if_false]
          exact apiMapGet_set_self _ _ _
  · intro idx content data attrs name ms h hmod hne
    have ht : jTruthy (Json.jstr ms) = true := by
      simp [jTruthy, hne]
    simp only [indexApiItem, h, apiLookup, hmod, ht, if_true]
    by_cases hd : containsSub name.data ['.'] = true
    · simp only [hd, if_true]
      exact apiMapGet_set_same _ _ _ _ (apiMapGet_set_self _ _ _)
    · simp only [hd, Bool.false_eq_true, if_false]
      exact apiMapGet_set_self _ _ _
  · intro idx content data attrs name h hsafe hd
    simp only [indexApiItem, h, apiLookup]
    cases hm : jGet attrs "module" with
    | none =>
      simp only [hd, if_true]
      exact apiMapGet_set_self _ _ _
    | some mv =>
      by_cases ht : jTruthy mv = true
      · cases mv with
        | jstr ms =>
          simp only [ht, if_true, hd]
          exact apiMapGet_set_self _ _ _
        | jnull => simp [jTruthy] at ht
        | jbool b =>
          simp only [moduleSafe, hm] at hsafe
          rw [ht] at hsafe
          simp at hsafe
        | jnum n =>
          simp only [moduleSafe, hm] at hsafe
          rw [ht] at hsafe
          simp at hsafe
        | jarr xs =>
          simp only [moduleSafe, hm] at hsafe
          rw [ht] at hsafe
          simp at hsafe
        | jobj fs =>
          simp only [moduleSafe, hm] at hsafe
          rw [ht] at hsafe
          simp at hsafe
      · simp only [ht, Bool.false_eq_true, if_false, hd, if_true]
        exact apiMapGet_set_self _ _ _

/-- Claim C6 witness: the contract applied at the concrete well-formed and
malformed records. -/
theorem api_index_contract_wit :
    indexApiItem [] badApiDoc = []
  ∧ apiLookup (indexApiItem [] goodApiDoc) "Ember.Component"
      = some (mkApiEntry goodApiData goodApiAttrs "Ember.Component")
  ∧ apiLookup (indexApiItem [] goodApiDoc) "@ember/component"
      = some (mkApiEntry goodApiData goodApiAttrs "Ember.Component")
  ∧ apiLookup (indexApiItem [] goodApiDoc)
      (String.mk (((splitOnChar '.' ("Ember.Component").data).getLast?).getD []))
      = some (mkApiEntry goodApiData goodApiAttrs "Ember.Component") :=
  ⟨api_index_contract.1 [] badApiDoc (by rfl),
   api_index_contract.2.1 [] goodApiDoc goodApiData goodApiAttrs "Ember.Component" (by rfl),
   api_index_contract.2.2.1 [] goodApiDoc goodApiData goodApiAttrs "Ember.Component"
     "@ember/component" (by rfl) (by rfl) (by decide),
   api_index_contract.2.2.2.1 [] goodApiDoc goodApiData goodApiAttrs "Ember.Component"
     (by rfl) (by rfl) (by rfl)⟩

/-! ### Claim C7 -/

/-- Claim C7, counterexample: a markdown header of 120 characters becomes
the title untruncated — title extraction does not enforce the claimed
100-character bound (only the final fallback branch truncates). -/
theorem extract_title_claim_cex :
    (extractTitle (String.mk ('#' :: ' ' :: List.replicate 120 'a'))).length = 120
  ∧ ¬ (extractTitle (String.mk ('#' :: ' ' :: List.replicate 120 'a'))).length ≤ 100 :=
  ⟨by decide, by decide⟩

/-- Claim C7, amended: titles resolve first-match-wins in the order
front-matter `title:` field, first non-generic markdown header longer than
3 characters, name of an embedded structured record, first meaningful line
(longer than 10 characters, first sentence extracted, truncated to 100
characters), literal `"Untitled"`; only the fallback branch truncates, so
earlier branches may exceed 100 characters.  Conjuncts demonstrate: the
generic-header example; front matter beating a header; a qualifying header
beating a record name; a record name beating a meaningful line; fallback
truncation to 100; sentence extraction; and the `"Untitled"` sentinel for
empty input and for input with only short lines. -/
theorem extract_title_resolution :
    extractTitle "# For all components\n## Understanding Tracked Properties\nbody text here"
      = "Understanding Tracked Properties"
  ∧ extractTitle "---\ntitle: My Doc\n---\n# Another Header Here" = "My Doc"
  ∧ extractTitle "# Component Basics\n\x7b \"data\": \x7b \"attributes\": \x7b \"name\": \"Router\" \x7d \x7d \x7d"
      = "Component Basics"
  ∧ extractTitle "Plain leading line that is long\n\x7b \"data\": \x7b \"attributes\": \x7b \"name\": \"Router\" \x7d \x7d \x7d"
      = "Router"
  ∧ (extractTitle (String.mk (List.replicate 200 'x'))).length = 100
  ∧ extractTitle "A long first sentence here. And more." = "A long first sentence here."
  ∧ extractTitle "" = "Untitled"
  ∧ extractTitle "short\n" = "Untitled" :=
  ⟨by decide, by decide, by decide, by decide, by decide, by decide, by decide, by decide⟩

/-! ### Claim C8 -/

theorem embed_err (msg : String) (s : EmbeddingServiceState) (t : String)
    (h : s.embedder = none) :
    (embed (Except.error msg) s t).2 = none
  ∧ (embed (Except.error msg) s t).1.embedder = none := by
  cases hi : s.initialized with
  | true => simp [embed, hi, h]
  | false => simp [embed, hi, initializeEmb, h]

theorem buildIdx_err (msg : String) :
    ∀ (items : List (String × EmbMetadata)) (s : EmbeddingServiceState)
      (entries : List EmbIndexEntry), s.embedder = none →
    (items.foldl (buildIdxStep (Except.error msg)) (s, entries)).2 = entries := by
  intro items
  induction items with
  | nil => intro s entries _; rfl
  | cons it rest ih =>
    intro s entries h
    obtain ⟨h2, h1⟩ := embed_err msg s it.1 h
    have hstep : buildIdxStep (Except.error msg) (s, entries) it
        = ((embed (Except.error msg) s it.1).1, entries) := by
      simp only [buildIdxStep]
      rcases he : embed (Except.error msg) s it.1 with ⟨s2, e⟩
      rw [he] at h2
      cases e with
      | none => rfl
      | some v => simp at h2
    simp only [List.foldl_cons, hstep]
    exact ih _ _ h1

/-- Claim C8: when the embedding model never initialises, the semantic
component is a guaranteed no-op.  Conjuncts: (i) `initialize()` absorbs the
pipeline failure — `initialized` stays false, `embedder` stays untouched,
and (being a total function) nothing is thrown; (ii) `embed()` returns
`null`; (iii) the embedding index stays empty; (iv) `semanticSearch`
against an empty index returns the empty list whatever the query; (v)
`search` with an empty embedding index degrades to exactly the keyword
results. -/
theorem embedding_unavailable_noop :
    (∀ (s : EmbeddingServiceState) (msg : String), s.initialized = false →
        (initializeEmb (Except.error msg) s).initialized = false
      ∧ (initializeEmb (Except.error msg) s).embedder = s.embedder)
  ∧ (∀ (s : EmbeddingServiceState) (msg text : String), s.embedder = none →
        (embed (Except.error msg) s text).2 = none)
  ∧ (∀ (s : EmbeddingServiceState) (msg : String) (sections : SectionsMap),
        s.embedder = none →
        (buildEmbeddingIndex (Except.error msg) s sections).2 = [])
  ∧ (∀ (sqrtQ : ℚ → ℚ) (pr : Except String Embedder) (s : EmbeddingServiceState)
        (hasService : Bool) (query category : String) (limit : Nat),
        semanticSearch sqrtQ pr s [] hasService query category limit = Except.ok [])
  ∧ (∀ (sqrtQ : ℚ → ℚ) (pr : Except String Embedder) (s : EmbeddingServiceState)
        (useEmbeddings : Bool) (sections : SectionsMap) (query category : String)
        (limit : Nat),
        search sqrtQ pr s useEmbeddings [] sections query category limit
          = (keywordSearch sections query category (limit * 2)).take limit) := by
  refine ⟨?_, ?_, ?_, ?_, ?_⟩
  · intro s msg h
    constructor <;> simp [initializeEmb, h]
  · intro s msg text h
    exact (embed_err msg s text h).1
  · intro s msg sections h
    have hinit : (initializeEmb (Except.error msg) s).embedder = none := by
      cases hi : s.initialized with
      | true => simpa [initializeEmb, hi] using h
      | false => simpa [initializeEmb, hi] using h
    simp only [buildEmbeddingIndex]
    exact buildIdx_err msg _ _ [] hinit
  · intro sqrtQ pr s hasService query category limit
    simp [semanticSearch]
    rfl
  · intro sqrtQ pr s useEmbeddings sections query category limit
    simp [search]

/-- Claim C8 witness: a fresh service whose pipeline load fails, a query
embed, and an index build over a one-item corpus. -/
theorem embedding_unavailable_noop_wit :
    (initializeEmb (Except.error "model unavailable") ⟨none, [], false⟩).initialized = false
  ∧ (embed (Except.error "model unavailable") ⟨none, [], false⟩ "tracked properties").2 = none
  ∧ (buildEmbeddingIndex (Except.error "model unavailable") ⟨none, [], false⟩
      [("guides", [⟨"Some Long Title Here\nbody", 0⟩])]).2 = [] :=
  ⟨(embedding_unavailable_noop.1 ⟨none, [], false⟩ "model unavailable" rfl).1,
   embedding_unavailable_noop.2.1 ⟨none, [], false⟩ "model unavailable" "tracked properties" rfl,
   embedding_unavailable_noop.2.2.1 ⟨none, [], false⟩ "model unavailable"
     [("guides", [⟨"Some Long Title Here\nbody", 0⟩])] rfl⟩

/-! ### Claim C10 -/

theorem simLoop_norm1 (l : List (ℚ × ℚ)) :
    ∀ (d n1 n2 : ℚ), (∀ p ∈ l, p.1 = 0) → (simLoop l (d, n1, n2)).2.1 = n1 := by
  induction l with
  | nil => intro d n1 n2 _; rfl
  | cons p rest ih =>
    intro d n1 n2 h
    have hp : p.1 = 0 := h p (List.mem_cons_self p rest)
    simp only [simLoop, hp, mul_zero, zero_mul, add_zero]
    exact ih _ _ _ (fun q hq => h q (List.mem_cons_of_mem p hq))

theorem simLoop_norm2 (l : List (ℚ × ℚ)) :
    ∀ (d n1 n2 : ℚ), (∀ p ∈ l, p.2 = 0) → (simLoop l (d, n1, n2)).2.2 = n2 := by
  induction l with
  | nil => intro d n1 n2 _; rfl
  | cons p rest ih =>
    intro d n1 n2 h
    have hp : p.2 = 0 := h p (List.mem_cons_self p rest)
    simp only [simLoop, hp, mul_zero, zero_mul, add_zero]
    exact ih _ _ _ (fun q hq => h q (List.mem_cons_of_mem p hq))

/-- Claim C10: for equal-length vectors one of which has zero magnitude
(all components zero — over the exact model, zero magnitude is exactly
that), `cosineSimilarity` returns exactly 0 and raises no error: the
division by the product of the magnitudes is guarded by the explicit
`magnitude === 0` check, and `Math.sqrt 0 = 0` is the only fact about the
square root used. -/
theorem cosine_zero_guard (sqrtQ : ℚ → ℚ) (e1 e2 : List ℚ)
    (hsq : sqrtQ 0 = 0) (hlen : e1.length = e2.length)
    (hz : (∀ x ∈ e1, x = 0) ∨ (∀ x ∈ e2, x = 0)) :
    cosineSimilarity sqrtQ e1 e2 = Except.ok 0 := by
  simp only [cosineSimilarity]
  rw [if_neg (by simp [hlen])]
  rcases hz with h1 | h2
  · have hn : (simLoop (e1.zip e2) (0, 0, 0)).2.1 = 0 :=
      simLoop_norm1 _ 0 0 0 (fun p hp => h1 p.1 (List.of_mem_zip hp).1)
    rw [hn, hsq, zero_mul, if_pos rfl]
  · have hn : (simLoop (e1.zip e2) (0, 0, 0)).2.2 = 0 :=
      simLoop_norm2 _ 0 0 0 (fun p hp => h2 p.2 (List.of_mem_zip hp).2)
    rw [hn, hsq, mul_zero, if_pos rfl]

/-- Claim C10 witness: an all-zero vector against a non-zero one of the
same length. -/
theorem cosine_zero_guard_wit :
    cosineSimilarity (fun q => q) [0, 0, 0] [1, 2, 3] = Except.ok 0 :=
  cosine_zero_guard (fun q => q) [0, 0, 0] [1, 2, 3] rfl (by decide)
    (Or.inl (by decide))

/-! ### Claim C9 -/

/-- Claim C9, counterexample: a document whose only occurrence of the
topic term sits inside a fenced code block scores 35 (≥ the minimum 10)
and is deduplication-eligible, yet `getBestPractices` returns nothing for
it: the extraction step skips code-block lines when looking for a relevant
line, finds no relevant content, and the practice is silently dropped —
the claim's description (score gate, dedupe, sort, cap) says it should be
returned. -/
theorem best_practices_spec_cex :
    bpDocScore sgId plS ["component"]
        (lowerChars "Guide To Widgets\n```\ncomponent\n```".data) = 35
  ∧ SEARCH_CONFIG.BP_MIN_THRESHOLD ≤ 35
  ∧ getBestPractices sgId plS
        [("guides-info", [⟨"Guide To Widgets\n```\ncomponent\n```", 0⟩])] "component"
      = [] :=
  ⟨by decide, by decide, by decide⟩

/-- Claim C9, amended: the extractor scores candidates as (matched
topic-term count × 15) + (20 if all terms matched) + (5 × strong keyword
hits) + (2 × weak hits, only when a strong hit exists), drops documents
below the minimum 10, suppresses duplicate titles case-insensitively
(first occurrence wins, and a title blocks later duplicates even when its
own practice is dropped), sorts by score descending and returns at most 5
— with the extra condition that a surviving document is emitted only when
its extracted best-practice content section is non-empty.  Conjuncts: the
cap, sortedness of the scored list, the closed-form score, and a concrete
corpus exercising threshold drop, duplicate-title suppression and
descending order. -/
theorem best_practices_amended :
    (∀ (singularOf pluralOf : String → String) (sections : SectionsMap) (topic : String),
        (getBestPractices singularOf pluralOf sections topic).length
          ≤ SEARCH_CONFIG.MAX_BEST_PRACTICES)
  ∧ (∀ (singularOf pluralOf : String → String) (sections : SectionsMap) (topic : String),
        (bestPracticesScored singularOf pluralOf sections topic).Pairwise
          (fun a b => ((b.2 : ℚ)) ≤ ((a.2 : ℚ))))
  ∧ (∀ (singularOf pluralOf : String → String) (topicTerms : List String)
        (content : Chars),
        bpDocScore singularOf pluralOf topicTerms content
          = (topicTerms.filter (termMatchesContent singularOf pluralOf content)).length
              * SEARCH_CONFIG.BP_TERM_MATCH_WEIGHT
            + (if (topicTerms.filter (termMatchesContent singularOf pluralOf content)).length
                  = topicTerms.length then SEARCH_CONFIG.BP_ALL_TERMS_BONUS else 0)
            + (BEST_PRACTICES_KEYWORDS_strong.filter
                (fun kw => containsSub content kw.data)).length
              * SEARCH_CONFIG.BP_STRONG_KEYWORD_WEIGHT
            + (if 0 < (BEST_PRACTICES_KEYWORDS_strong.filter
                  (fun kw => containsSub content kw.data)).length then
                 (BEST_PRACTICES_KEYWORDS_weak.filter
                   (fun kw => containsSub content kw.data)).length
                   * SEARCH_CONFIG.BP_WEAK_KEYWORD_WEIGHT
               else 0))
  ∧ ((getBestPractices sgId plS [("community-bloggers", [bpDocD, bpDocA, bpDocB, bpDocC])]
        "component").map (fun p => p.title)
      = ["Modern Component Patterns", "Another Component Note"])
  ∧ ((bestPracticesScored sgId plS [("community-bloggers", [bpDocD, bpDocA, bpDocB, bpDocC])]
        "component").map (fun p => (p.1.title, p.2))
      = [("Modern Component Patterns", 47), ("Another Component Note", 35)]) := by
  refine ⟨?_, ?_, ?_, by decide, by decide⟩
  · intro singularOf pluralOf sections topic
    simp only [getBestPractices, List.length_map]
    exact List.length_take_le _ _
  · intro singularOf pluralOf sections topic
    simp only [bestPracticesScored]
    exact sortDescBy_sorted _ _
  · intro singularOf pluralOf topicTerms content
    simp only [bpDocScore]
    by_cases hall : (topicTerms.filter (termMatchesContent singularOf pluralOf content)).length
        = topicTerms.length
    · have hb := beq_iff_eq.mpr hall
      rw [if_pos hb, if_pos hall]
      by_cases hs : 0 < (BEST_PRACTICES_KEYWORDS_strong.filter
          (fun kw => containsSub content kw.data)).length
      · rw [if_pos (decide_eq_true hs), if_pos hs]
        omega
      · rw [if_neg (by simpa using hs), if_neg hs]
        omega
    · have hb : ¬ ((topicTerms.filter (termMatchesContent singularOf pluralOf content)).length
          == topicTerms.length) = true := by simpa [beq_iff_eq] using hall
      rw [if_neg hb, if_neg hall]
      by_cases hs : 0 < (BEST_PRACTICES_KEYWORDS_strong.filter
          (fun kw => containsSub content kw.data)).length
      · rw [if_pos (decide_eq_true hs), if_pos hs]
        omega
      · rw [if_neg (by simpa using hs), if_neg hs]
        omega

end EmberMcp
